import Mathlib

set_option maxHeartbeats 1000000

/-!
Verification of `TransformationAddBitInstructionSynonym`
(source/fuzz/transformation_add_bit_instruction_synonym.cpp).

The development shallowly embeds the transformation: SPIR-V instructions,
the pieces of `opt::IRContext` the transformation consults (def-use lookup,
type lookup, integer-constant lookup, id bound, fact manager), and the
three entry points `IsApplicable`, `Apply` / `AddBitwiseSynonym` and
`GetRequiredFreshIdCount`.  Machine integers are modelled as `Nat` with
explicit `% 2 ^ w` truncation where overflow matters; C++ executions that
would dereference a null pointer or trip an assertion are modelled as
`Option` results that are `none`.
-/

/-- SPIR-V opcodes relevant to the transformation.  `OtherOp` stands for
every opcode outside this set. -/
inductive SpvOp where
  | BitwiseOr
  | BitwiseXor
  | BitwiseAnd
  | BitFieldUExtract
  | BitFieldInsert
  | OtherOp (code : Nat)
deriving DecidableEq, Repr

/-- An instruction: opcode, result type id, result id, and the list of
in-operand ids (the region `begin() + 2 .. end()` of an
`opt::Instruction`, i.e. everything after the result-type and result-id
slots).  All operands of the instructions handled here are plain ids. -/
structure Instruction where
  opcode : SpvOp
  type_id : Nat
  result_id : Nat
  in_operands : List Nat
deriving DecidableEq, Repr

/-- Types, as far as the transformation inspects them (`AsInteger`,
`AsVector`).  `Float` and `OtherType` are the scalar non-integer cases. -/
inductive SpvType where
  | Integer (width : Nat) (signedness : Bool)
  | Float (width : Nat)
  | Vector (component_type_id : Nat) (component_count : Nat)
  | OtherType (code : Nat)
deriving DecidableEq, Repr

/-- Translation of `analysis::Type::AsInteger`: the integer view of a type,
or `none` (a C++ null pointer) when the type is not a scalar integer. -/
def SpvType.AsInteger : SpvType → Option (Nat × Bool)
  | SpvType.Integer w s => some (w, s)
  | _ => none

/-- Translation of `analysis::Type::AsVector`: the vector view of a type,
or `none` (a C++ null pointer) when the type is not a vector. -/
def SpvType.AsVector : SpvType → Option (Nat × Nat)
  | SpvType.Vector c n => some (c, n)
  | _ => none

/-- A data descriptor, as built by `MakeDataDescriptor(id, {})`: a result
id together with an access path (empty for scalar values). -/
abbrev DataDescriptor := Nat × List Nat

/-- A synonym fact relating two data descriptors. -/
abbrev SynFact := DataDescriptor × DataDescriptor

/-- The slice of an `opt::IRContext` consulted by the transformation: the
ordered instruction list of the function being mutated, the type table,
the table of 32-bit unsigned integer constants (value, result id), the
module id bound and a validity flag for the cached analyses. -/
structure IRModule where
  instructions : List Instruction
  types : List (Nat × SpvType)
  uint32_consts : List (Nat × Nat)
  id_bound : Nat
  analyses_valid : Bool
deriving DecidableEq, Repr

/-- The protobuf message `TransformationAddBitInstructionSynonym`:
the result id of the target bit instruction and the ordered fresh ids. -/
structure TransformationAddBitInstructionSynonym where
  instruction_result_id : Nat
  fresh_ids : List Nat
deriving DecidableEq, Repr

/-- Modelled from the spec: "look up an instruction by result identifier"
(`get_def_use_mgr()->GetDef`).  Returns the first instruction whose result
id matches, or `none` (a C++ null pointer) when the id is undefined. -/
def GetDef (m : IRModule) (id : Nat) : Option Instruction :=
  m.instructions.find? (fun i => i.result_id == id)

/-- Modelled from the spec: "look up a type by type identifier"
(`get_type_mgr()->GetType`).  `none` models a C++ null pointer. -/
def GetType (m : IRModule) (tid : Nat) : Option SpvType :=
  (m.types.find? (fun e => e.1 == tid)).map (fun e => e.2)

/-- Modelled from the spec: "look up-or-fail a 32-bit unsigned integer
constant with a given literal value" (`fuzzerutil::MaybeGetIntegerConstant`
with width 32, unsigned, not irrelevant).  Returns the constant's result
id, or 0 when no such constant is available. -/
def MaybeGetIntegerConstant (m : IRModule) (value : Nat) : Nat :=
  match m.uint32_consts.find? (fun e => e.1 == value) with
  | some e => e.2
  | none => 0

/-- Modelled from the spec: "test whether an identifier is unused"
(`fuzzerutil::IsFreshId`).  An id is fresh when no instruction, type or
constant of the module uses it as its result id. -/
def IsFreshId (m : IRModule) (id : Nat) : Bool :=
  (GetDef m id).isNone && m.types.all (fun e => e.1 != id) &&
    m.uint32_consts.all (fun e => e.2 != id)

/-- Modelled from the spec: "advance the module's identifier bound"
(`fuzzerutil::UpdateModuleIdBound`): the bound becomes at least `id + 1`. -/
def UpdateModuleIdBound (m : IRModule) (id : Nat) : IRModule :=
  { m with id_bound := max m.id_bound (id + 1) }

/-- Translation of `opt::Instruction::InsertBefore` at the list level: the
new instruction goes immediately before the first instruction whose result
id is `target_id` (the list is unchanged when no such instruction exists;
the source never reaches that case). -/
def insertBeforeList (target_id : Nat) (inst : Instruction) :
    List Instruction → List Instruction
  | [] => []
  | x :: xs =>
    if x.result_id = target_id then inst :: x :: xs
    else x :: insertBeforeList target_id inst xs

/-- Insertion of a new instruction immediately before the target
instruction of the module. -/
def insertBefore (m : IRModule) (target_id : Nat) (inst : Instruction) : IRModule :=
  { m with instructions := insertBeforeList target_id inst m.instructions }

/-- Translation of `InvalidateAnalysesExceptFor(kAnalysisNone)`: every
cached analysis becomes stale. -/
def InvalidateAnalyses (m : IRModule) : IRModule :=
  { m with analyses_valid := false }

/-- Translation of
`TransformationAddBitInstructionSynonym::GetRequiredFreshIdCount`
(source lines 118-135).  `none` models the `assert(false)` on an
unsupported opcode and the null dereference of `AsInteger()` when the
result type is not a scalar integer. -/
def GetRequiredFreshIdCount (m : IRModule) (bit_instruction : Instruction) : Option Nat :=
  match bit_instruction.opcode with
  | SpvOp.BitwiseOr | SpvOp.BitwiseXor | SpvOp.BitwiseAnd =>
    match (GetType m bit_instruction.type_id).bind SpvType.AsInteger with
    | some p => some (4 * p.1 - 1)
    | none => none
  | _ => none

/-- Translation of `TransformationAddBitInstructionSynonym::IsApplicable`
(source lines 37-89), with the checks in source order.  A result of
`none` models a C++ null-pointer dereference: the source calls
`GetType(...)->AsVector()` and `...->AsInteger()->width()` without null
checks, so a dangling type id or a scalar non-integer result type crashes
instead of returning `false`. -/
def IsApplicable (m : IRModule) (msg : TransformationAddBitInstructionSynonym) :
    Option Bool :=
  match GetDef m msg.instruction_result_id with
  | none => some false
  | some instruction =>
    if ¬ (instruction.opcode = SpvOp.BitwiseOr ∨
          instruction.opcode = SpvOp.BitwiseXor ∨
          instruction.opcode = SpvOp.BitwiseAnd) then
      some false
    else
      match GetType m instruction.type_id with
      | none => none
      | some ty =>
        if ty.AsVector.isSome then
          some false
        else
          match ty.AsInteger with
          | none => none
          | some p =>
            if (List.range p.1).any (fun i => MaybeGetIntegerConstant m i == 0) then
              some false
            else
              match GetRequiredFreshIdCount m instruction with
              | none => none
              | some required =>
                if msg.fresh_ids.length ≠ required then
                  some false
                else if msg.fresh_ids.any (fun id => ! IsFreshId m id) then
                  some false
                else
                  some true

/-- Translation of the inner operand loop of `AddBitwiseSynonym`
(source lines 166-177): one `OpBitFieldUExtract` per operand of the bit
instruction, each consuming one fresh id from the cursor.  Returns the
created instructions, the extracted-bit ids, and the remaining cursor. -/
def extractOperands (tid : Nat) (offsetId countId : Nat) :
    List Nat → List Nat → List Instruction × List Nat × List Nat
  | [], fresh => ([], [], fresh)
  | operand :: rest, fresh =>
    let bit_extract : Instruction :=
      { opcode := SpvOp.BitFieldUExtract, type_id := tid,
        result_id := fresh.headD 0,
        in_operands := [operand, offsetId, countId] }
    let r := extractOperands tid offsetId countId rest fresh.tail
    (bit_extract :: r.1, bit_extract.result_id :: r.2.1, r.2.2)

/-- Translation of the first loop of `AddBitwiseSynonym` (source lines
157-188): for each bit index starting at `i`, extract the bit from each
operand and apply the original opcode to the pair, consuming fresh ids
strictly in order.  Returns the created instructions, the `bitwise_ids`
vector, and the remaining cursor. -/
def bitLoop (bi : Instruction) (countId : Nat) (constId : Nat → Nat) :
    Nat → Nat → List Nat → List Instruction × List Nat × List Nat
  | _, 0, fresh => ([], [], fresh)
  | i, n + 1, fresh =>
    let ext := extractOperands bi.type_id (constId i) countId bi.in_operands fresh
    let bitwise : Instruction :=
      { opcode := bi.opcode, type_id := bi.type_id,
        result_id := ext.2.2.headD 0,
        in_operands := [ext.2.1.getD 0 0, ext.2.1.getD 1 0] }
    let rest := bitLoop bi countId constId (i + 1) n ext.2.2.tail
    (ext.1 ++ bitwise :: rest.1, bitwise.result_id :: rest.2.1, rest.2.2)

/-- Translation of the second loop of `AddBitwiseSynonym` (source lines
204-216): the remaining `OpBitFieldInsert` instructions, each taking the
previous insert's result as base.  Returns the created instructions and
the result id of the last insert. -/
def insertLoop (bi : Instruction) (countId : Nat) (constId : Nat → Nat)
    (bitwise_ids : List Nat) : Nat → Nat → Nat → List Nat → List Instruction × Nat
  | _, 0, prev, _ => ([], prev)
  | i, n + 1, prev, fresh =>
    let bit_insert : Instruction :=
      { opcode := SpvOp.BitFieldInsert, type_id := bi.type_id,
        result_id := fresh.headD 0,
        in_operands := [prev, bitwise_ids.getD i 0, constId i, countId] }
    let rest := insertLoop bi countId constId bitwise_ids (i + 1) n
      bit_insert.result_id fresh.tail
    (bit_insert :: rest.1, rest.2)

/-- The outcome of a successful `Apply`: the mutated module, the fact
store, and the record of the instructions inserted (in creation and
program order). -/
structure ApplyOutcome where
  module : IRModule
  facts : List SynFact
  created : List Instruction
deriving DecidableEq, Repr

/-- One creation step of `AddBitwiseSynonym`: `InsertBefore` the target
followed immediately by `UpdateModuleIdBound` on the new result id
(source lines 174-175, 185-186, 200-201, 214-215). -/
def applyStep (target_id : Nat) (m : IRModule) (inst : Instruction) : IRModule :=
  UpdateModuleIdBound (insertBefore m target_id inst) inst.result_id

/-- Translation of
`TransformationAddBitInstructionSynonym::AddBitwiseSynonym` (source lines
137-225).  The created instructions depend on the module only through the
type table and the constant table, neither of which any `InsertBefore` or
`UpdateModuleIdBound` step modifies, so the translation computes the
created list first and then performs the per-instruction
insert-then-advance-bound steps (`applyStep`) in creation order — the same
interleaving as the source.  `none` models the null dereference of
`AsInteger()` when the result type is not a scalar integer. -/
def AddBitwiseSynonym (m : IRModule) (facts : List SynFact)
    (bit_instruction : Instruction) (fresh_ids : List Nat) : Option ApplyOutcome :=
  match (GetType m bit_instruction.type_id).bind SpvType.AsInteger with
  | none => none
  | some p =>
    let width := p.1
    let countId := MaybeGetIntegerConstant m 1
    let phaseA := bitLoop bit_instruction countId
      (fun i => MaybeGetIntegerConstant m i) 0 width fresh_ids
    let firstInsert : Instruction :=
      { opcode := SpvOp.BitFieldInsert, type_id := bit_instruction.type_id,
        result_id := phaseA.2.2.headD 0,
        in_operands := [phaseA.2.1.getD 0 0, phaseA.2.1.getD 1 0,
                        MaybeGetIntegerConstant m 1, countId] }
    let phaseB := insertLoop bit_instruction countId
      (fun i => MaybeGetIntegerConstant m i) phaseA.2.1 2 (width - 2)
      firstInsert.result_id phaseA.2.2.tail
    let created := phaseA.1 ++ firstInsert :: phaseB.1
    let m1 := created.foldl (applyStep bit_instruction.result_id) m
    some { module := InvalidateAnalyses m1,
           facts := facts ++ [((phaseB.2, []), (bit_instruction.result_id, []))],
           created := created }

/-- Translation of `TransformationAddBitInstructionSynonym::Apply`
(source lines 91-109).  `none` models the null dereference when the
target id is undefined and the `assert(false)` on an unsupported
opcode. -/
def Apply (m : IRModule) (facts : List SynFact)
    (msg : TransformationAddBitInstructionSynonym) : Option ApplyOutcome :=
  match GetDef m msg.instruction_result_id with
  | none => none
  | some bit_instruction =>
    match bit_instruction.opcode with
    | SpvOp.BitwiseOr | SpvOp.BitwiseXor | SpvOp.BitwiseAnd =>
      (AddBitwiseSynonym m facts bit_instruction msg.fresh_ids).map
        (fun out => { out with module := InvalidateAnalyses out.module })
    | _ => none

/-- Written from the spec's description of the emitted shape (§4.3, claim
C4): the per-bit triple for bit `i` — an unsigned single-bit extract per
operand followed by the original opcode on the two extracted bits, with
result ids `f (3*i)`, `f (3*i+1)`, `f (3*i+2)` taken from the fresh-id
cursor and bit-index constant ids given by `cf`. -/
def specTriple (op : SpvOp) (tid a_id b_id : Nat) (cf f : Nat → Nat) (i : Nat) :
    List Instruction :=
  [ { opcode := SpvOp.BitFieldUExtract, type_id := tid, result_id := f (3 * i),
      in_operands := [a_id, cf i, cf 1] },
    { opcode := SpvOp.BitFieldUExtract, type_id := tid, result_id := f (3 * i + 1),
      in_operands := [b_id, cf i, cf 1] },
    { opcode := op, type_id := tid, result_id := f (3 * i + 2),
      in_operands := [f (3 * i), f (3 * i + 1)] } ]

/-- Written from the spec (§4.3 Phase A): `n` extract/extract/combine
triples, one per bit index. -/
def specPhaseA (op : SpvOp) (tid a_id b_id : Nat) (cf f : Nat → Nat) (n : Nat) :
    List Instruction :=
  (List.range n).flatMap (specTriple op tid a_id b_id cf f)

/-- Written from the spec (§4.3 Phase B): the `k`-th bit-field-insert
(`k = 0` is the first).  It inserts combine result `k + 1` at offset
`k + 1` with count 1; its base is combine result 0 when `k = 0` and the
previous insert's result otherwise; its result id is `f (3*w + k)`. -/
def specInsert (tid : Nat) (cf f : Nat → Nat) (w k : Nat) : Instruction :=
  { opcode := SpvOp.BitFieldInsert, type_id := tid, result_id := f (3 * w + k),
    in_operands := [if k = 0 then f 2 else f (3 * w + k - 1),
                    f (3 * (k + 1) + 2), cf (k + 1), cf 1] }

/-- Written from the spec (§4.3 Phase B): the `n` bit-field-inserts of the
reconstruction phase. -/
def specPhaseB (tid : Nat) (cf f : Nat → Nat) (w n : Nat) :
    List Instruction :=
  (List.range n).map (specInsert tid cf f w)

/-- Written from the spec (§4.3, claim C4): the whole emitted chain for a
width-`w` target — `w` triples followed by `w - 1` inserts, `4*w - 1`
instructions in total. -/
def specChain (op : SpvOp) (tid a_id b_id : Nat) (cf f : Nat → Nat) (w : Nat) :
    List Instruction :=
  specPhaseA op tid a_id b_id cf f w ++ specPhaseB tid cf f w (w - 1)

/-- An evaluation environment: a partial map from result ids to values. -/
def updEnv (e : Nat → Option Nat) (id v : Nat) : Nat → Option Nat :=
  fun x => if x = id then some v else e x

/-- Modelled from the spec (glossary, "Bit-field extract/insert" and the
three bitwise opcodes): the value computed by one instruction under an
environment.  `tw` maps a type id to its scalar-integer bit width.
`OpBitFieldUExtract base off cnt` reads the `cnt` bits of `base` starting
at bit `off`; `OpBitFieldInsert base ins off cnt` keeps the bits of `base`
outside `[off, off+cnt)` and writes the low `cnt` bits of `ins` there,
truncated to the result width. -/
def evalInstr (tw : Nat → Option Nat) (e : Nat → Option Nat)
    (inst : Instruction) : Option Nat :=
  match tw inst.type_id with
  | none => none
  | some w =>
    match inst.opcode, inst.in_operands with
    | SpvOp.BitwiseOr, [x, y] =>
      match e x, e y with
      | some a, some b => some (a ||| b)
      | _, _ => none
    | SpvOp.BitwiseXor, [x, y] =>
      match e x, e y with
      | some a, some b => some (a ^^^ b)
      | _, _ => none
    | SpvOp.BitwiseAnd, [x, y] =>
      match e x, e y with
      | some a, some b => some (a &&& b)
      | _, _ => none
    | SpvOp.BitFieldUExtract, [x, o, c] =>
      match e x, e o, e c with
      | some base, some off, some cnt => some (base / 2 ^ off % 2 ^ cnt)
      | _, _, _ => none
    | SpvOp.BitFieldInsert, [x, y, o, c] =>
      match e x, e y, e o, e c with
      | some base, some ins, some off, some cnt =>
        some ((base % 2 ^ off + ins % 2 ^ cnt * 2 ^ off +
               base / 2 ^ (off + cnt) * 2 ^ (off + cnt)) % 2 ^ w)
      | _, _, _, _ => none
    | _, _ => none

/-- Evaluation of an instruction sequence in order: each instruction's
value is bound to its result id; evaluation fails if some operand is
unbound or an instruction is malformed. -/
def evalChain (tw : Nat → Option Nat) (e : Nat → Option Nat) :
    List Instruction → Option (Nat → Option Nat)
  | [] => some e
  | inst :: rest =>
    match evalInstr tw e inst with
    | none => none
    | some v => evalChain tw (updEnv e inst.result_id v) rest

/-- The mathematical function computed by a supported bitwise opcode. -/
def opFn : SpvOp → Nat → Nat → Nat
  | SpvOp.BitwiseOr, a, b => a ||| b
  | SpvOp.BitwiseXor, a, b => a ^^^ b
  | SpvOp.BitwiseAnd, a, b => a &&& b
  | _, _, _ => 0

/-- Written from the claim C3's list of failure conditions: the target id
is undefined; or the opcode is not OR/XOR/AND; or the result type is a
vector; or some bit position `0 .. width-1` lacks a 32-bit unsigned
integer constant; or the fresh-id count differs from
`GetRequiredFreshIdCount`; or some supplied id is not fresh. -/
def specFailCond (m : IRModule) (msg : TransformationAddBitInstructionSynonym) : Bool :=
  match GetDef m msg.instruction_result_id with
  | none => true
  | some instruction =>
    decide (¬ (instruction.opcode = SpvOp.BitwiseOr ∨
               instruction.opcode = SpvOp.BitwiseXor ∨
               instruction.opcode = SpvOp.BitwiseAnd)) ||
    (match GetType m instruction.type_id with
     | some t => t.AsVector.isSome
     | none => false) ||
    (match (GetType m instruction.type_id).bind SpvType.AsInteger with
     | some p => (List.range p.1).any (fun i => MaybeGetIntegerConstant m i == 0)
     | none => false) ||
    (match GetRequiredFreshIdCount m instruction with
     | some required => decide (msg.fresh_ids.length ≠ required)
     | none => false) ||
    msg.fresh_ids.any (fun id => ! IsFreshId m id)

/-- A module/descriptor pair is well typed for the checker when the
target instruction, if defined and carrying a supported opcode, has a
result type that resolves to a vector or scalar-integer type (the only
situations in which the source's unchecked `AsVector` / `AsInteger`
dereferences are safe). -/
def wellTypedTarget (m : IRModule) (msg : TransformationAddBitInstructionSynonym) : Bool :=
  match GetDef m msg.instruction_result_id with
  | none => true
  | some instruction =>
    ! decide (instruction.opcode = SpvOp.BitwiseOr ∨
              instruction.opcode = SpvOp.BitwiseXor ∨
              instruction.opcode = SpvOp.BitwiseAnd) ||
    (match GetType m instruction.type_id with
     | some t => t.AsVector.isSome || t.AsInteger.isSome
     | none => false)

/-- All ids an instruction uses: its result id, its result type id and its
in-operand ids. -/
def Instruction.usedIds (i : Instruction) : List Nat :=
  i.result_id :: i.type_id :: i.in_operands

/-- All ids used anywhere in the module: by instructions, the type table
or the constant table. -/
def IRModule.usedIds (m : IRModule) : List Nat :=
  m.instructions.flatMap Instruction.usedIds ++ m.types.map (fun e => e.1) ++
    m.uint32_consts.map (fun e => e.2)

/-- The module id-bound invariant: the bound is strictly greater than
every id used anywhere in the module. -/
def IdBoundOk (m : IRModule) : Prop :=
  ∀ id ∈ m.usedIds, id < m.id_bound

/-- Definedness before use: every instruction's in-operands are covered by
`low` (the ids already defined before the sequence) extended with the
result ids of the earlier instructions of the sequence. -/
def DefBeforeUse (low : Nat → Prop) : List Instruction → Prop
  | [] => True
  | inst :: rest =>
    (∀ x ∈ inst.in_operands, low x) ∧
      DefBeforeUse (fun x => low x ∨ x = inst.result_id) rest

instance (m : IRModule) : Decidable (IdBoundOk m) :=
  inferInstanceAs (Decidable (∀ id ∈ m.usedIds, id < m.id_bound))

/-- The state the checker can see: the module and the session's fact
store (the `TransformationContext`). -/
structure SessionState where
  module : IRModule
  facts : List SynFact
deriving DecidableEq, Repr

/-- Modelled from the spec: instruction lookup as a stateful query. -/
def getDefSt (s : SessionState) (id : Nat) : Option Instruction × SessionState :=
  (GetDef s.module id, s)

/-- Modelled from the spec: type lookup as a stateful query. -/
def getTypeSt (s : SessionState) (tid : Nat) : Option SpvType × SessionState :=
  (GetType s.module tid, s)

/-- Modelled from the spec: constant lookup as a stateful query. -/
def maybeGetIntegerConstantSt (s : SessionState) (value : Nat) : Nat × SessionState :=
  (MaybeGetIntegerConstant s.module value, s)

/-- Modelled from the spec: freshness test as a stateful query. -/
def isFreshIdSt (s : SessionState) (id : Nat) : Bool × SessionState :=
  (IsFreshId s.module id, s)

/-- Modelled from the spec: the required-count calculator as a stateful
query. -/
def getRequiredFreshIdCountSt (s : SessionState) (bit_instruction : Instruction) :
    Option Nat × SessionState :=
  (GetRequiredFreshIdCount s.module bit_instruction, s)

/-- The per-bit constant loop of `IsApplicable` (source lines 67-72) with
the session state threaded through every collaborator call; returns false
at the first missing constant. -/
def checkConstantsSt : SessionState → Nat → Nat → Bool × SessionState
  | s, 0, _ => (true, s)
  | s, n + 1, i =>
    let r := maybeGetIntegerConstantSt s i
    if r.1 == 0 then (false, r.2) else checkConstantsSt r.2 n (i + 1)

/-- The freshness loop of `IsApplicable` (source lines 82-86) with the
session state threaded through every collaborator call. -/
def checkFreshSt : SessionState → List Nat → Bool × SessionState
  | s, [] => (true, s)
  | s, id :: rest =>
    let r := isFreshIdSt s id
    if ! r.1 then (false, r.2) else checkFreshSt r.2 rest

/-- Translation of `IsApplicable` with the session state made explicit:
every collaborator call takes the current state and returns the next one,
in source order, so that the checker's (absence of) side effects is
visible in the returned state. -/
def IsApplicableSt (s : SessionState) (msg : TransformationAddBitInstructionSynonym) :
    Option Bool × SessionState :=
  let d := getDefSt s msg.instruction_result_id
  match d.1 with
  | none => (some false, d.2)
  | some instruction =>
    if ¬ (instruction.opcode = SpvOp.BitwiseOr ∨
          instruction.opcode = SpvOp.BitwiseXor ∨
          instruction.opcode = SpvOp.BitwiseAnd) then
      (some false, d.2)
    else
      let t := getTypeSt d.2 instruction.type_id
      match t.1 with
      | none => (none, t.2)
      | some ty =>
        if ty.AsVector.isSome then
          (some false, t.2)
        else
          match ty.AsInteger with
          | none => (none, t.2)
          | some p =>
            let c := checkConstantsSt t.2 p.1 0
            if ! c.1 then
              (some false, c.2)
            else
              let req := getRequiredFreshIdCountSt c.2 instruction
              match req.1 with
              | none => (none, req.2)
              | some required =>
                if msg.fresh_ids.length ≠ required then
                  (some false, req.2)
                else
                  let fr := checkFreshSt req.2 msg.fresh_ids
                  if ! fr.1 then (some false, fr.2) else (some true, fr.2)

/-- A concrete width-8 `OpBitwiseXor` target instruction (result id 32,
operands 30 and 31, type id 1), used by the witnesses. -/
def exTarget : Instruction :=
  { opcode := SpvOp.BitwiseXor, type_id := 1, result_id := 32, in_operands := [30, 31] }

/-- A concrete module holding `exTarget`, an 8-bit unsigned integer type
and the 32-bit constants 0..7 (ids 10..17). -/
def exM : IRModule :=
  { instructions := [exTarget],
    types := [(1, SpvType.Integer 8 false)],
    uint32_consts := (List.range 8).map (fun i => (i, 10 + i)),
    id_bound := 33,
    analyses_valid := true }

/-- A concrete descriptor for `exTarget` with the 31 fresh ids 41..71. -/
def exMsg : TransformationAddBitInstructionSynonym :=
  { instruction_result_id := 32, fresh_ids := (List.range 31).map (fun k => 41 + k) }

/-- A concrete environment binding `exTarget`'s operands to the claim's
inputs `0b10110010` and `0b01100110` and each constant id to its value. -/
def exEnv : Nat → Option Nat := fun x =>
  if x = 30 then some 178 else if x = 31 then some 102
  else if 10 ≤ x ∧ x ≤ 17 then some (x - 10) else none

/-- The width of type id 1 in `exM`. -/
def exTw : Nat → Option Nat := fun t => if t = 1 then some 8 else none

/-- A module whose target is a supported bit instruction with a dangling
result type id (no type with id 5 exists): the checker's unchecked
`GetType(...)->AsVector()` dereferences a null pointer on it. -/
def c3M : IRModule :=
  { instructions := [{ opcode := SpvOp.BitwiseOr, type_id := 5, result_id := 2,
                       in_operands := [3, 4] }],
    types := [],
    uint32_consts := [],
    id_bound := 6,
    analyses_valid := true }

/-- A descriptor naming `c3M`'s target, with no fresh ids. -/
def c3Msg : TransformationAddBitInstructionSynonym :=
  { instruction_result_id := 2, fresh_ids := [] }

/-- A target whose result type is a scalar 32-bit float. -/
def c8Target : Instruction :=
  { opcode := SpvOp.BitwiseOr, type_id := 7, result_id := 2, in_operands := [3, 4] }

/-- A module whose supported-opcode target has a scalar float result
type: the checker passes the `AsVector` test and then dereferences the
null `AsInteger()` result. -/
def c8M : IRModule :=
  { instructions := [c8Target],
    types := [(7, SpvType.Float 32)],
    uint32_consts := [],
    id_bound := 8,
    analyses_valid := true }

/-- A descriptor naming `c8M`'s target. -/
def c8Msg : TransformationAddBitInstructionSynonym :=
  { instruction_result_id := 2, fresh_ids := [] }

/-- A module whose target's result type is a vector of integers — well
typed for the checker, which rejects it with `false`. -/
def vecM : IRModule :=
  { instructions := [{ opcode := SpvOp.BitwiseAnd, type_id := 9, result_id := 2,
                       in_operands := [3, 4] }],
    types := [(8, SpvType.Integer 32 false), (9, SpvType.Vector 8 4)],
    uint32_consts := [],
    id_bound := 10,
    analyses_valid := true }

/-- A descriptor naming `vecM`'s target. -/
def vecMsg : TransformationAddBitInstructionSynonym :=
  { instruction_result_id := 2, fresh_ids := [] }

theorem checkConstantsSt_snd : ∀ (n i : Nat) (s : SessionState),
    (checkConstantsSt s n i).2 = s := by
  intro n
  induction n with
  | zero => intro i s; rfl
  | succ n ih =>
    intro i s
    unfold checkConstantsSt
    simp only [maybeGetIntegerConstantSt]
    split
    · rfl
    · exact ih (i + 1) s

theorem checkFreshSt_snd : ∀ (l : List Nat) (s : SessionState),
    (checkFreshSt s l).2 = s := by
  intro l
  induction l with
  | nil => intro s; rfl
  | cons id rest ih =>
    intro s
    unfold checkFreshSt
    simp only [isFreshIdSt]
    split
    · rfl
    · exact ih s

theorem isApplicableSt_snd (s : SessionState)
    (msg : TransformationAddBitInstructionSynonym) : (IsApplicableSt s msg).2 = s := by
  unfold IsApplicableSt
  simp only [getDefSt, getTypeSt, getRequiredFreshIdCountSt]
  split
  · rfl
  · split
    · rfl
    · split
      · rfl
      · split
        · rfl
        · split
          · rfl
          · split
            · exact checkConstantsSt_snd _ _ _
            · split
              · exact checkConstantsSt_snd _ _ _
              · split
                · exact checkConstantsSt_snd _ _ _
                · split
                  · simp only [checkFreshSt_snd, checkConstantsSt_snd]
                  · simp only [checkFreshSt_snd, checkConstantsSt_snd]

/-- C9: the applicability check is a side-effect-free query — it returns
the session state (module, id bound, cached-analysis flag and fact store)
exactly as it received it, and running it a second time on that state
yields the same boolean result. -/
theorem C9_checker_is_pure_and_idempotent (s : SessionState)
    (msg : TransformationAddBitInstructionSynonym) :
    (IsApplicableSt s msg).2 = s ∧
    (IsApplicableSt s msg).1 = (IsApplicableSt (IsApplicableSt s msg).2 msg).1 := by
  refine ⟨isApplicableSt_snd s msg, ?_⟩
  rw [isApplicableSt_snd s msg]

/-- C2: for every instruction whose opcode is one of the three supported
bitwise operations and whose scalar integer result type has bit width
`w`, `GetRequiredFreshIdCount` returns exactly `4 * w - 1`. -/
theorem C2_required_fresh_id_count (m : IRModule) (bi : Instruction) (w : Nat) (s : Bool)
    (hop : bi.opcode = SpvOp.BitwiseOr ∨ bi.opcode = SpvOp.BitwiseXor ∨
      bi.opcode = SpvOp.BitwiseAnd)
    (hty : GetType m bi.type_id = some (SpvType.Integer w s)) :
    GetRequiredFreshIdCount m bi = some (4 * w - 1) := by
  rcases hop with h | h | h <;>
    simp [GetRequiredFreshIdCount, h, hty, SpvType.AsInteger]

/-- Witness for C2 at the concrete width-8 target. -/
theorem C2_required_fresh_id_count_witness :
    (exTarget.opcode = SpvOp.BitwiseOr ∨ exTarget.opcode = SpvOp.BitwiseXor ∨
      exTarget.opcode = SpvOp.BitwiseAnd) ∧
    GetType exM exTarget.type_id = some (SpvType.Integer 8 false) ∧
    GetRequiredFreshIdCount exM exTarget = some (4 * 8 - 1) :=
  ⟨by decide, by decide,
    C2_required_fresh_id_count exM exTarget 8 false (by decide) (by decide)⟩

theorem isApplicable_wt (m : IRModule) (msg : TransformationAddBitInstructionSynonym)
    (hwt : wellTypedTarget m msg = true) :
    IsApplicable m msg = some (! specFailCond m msg) := by
  unfold IsApplicable specFailCond
  cases hd : GetDef m msg.instruction_result_id with
  | none => simp
  | some instruction =>
    by_cases hop : (instruction.opcode = SpvOp.BitwiseOr ∨
        instruction.opcode = SpvOp.BitwiseXor ∨ instruction.opcode = SpvOp.BitwiseAnd)
    · have hwt2 : (match GetType m instruction.type_id with
          | some t => t.AsVector.isSome || t.AsInteger.isSome
          | none => false) = true := by
        unfold wellTypedTarget at hwt
        rw [hd] at hwt
        simpa [hop] using hwt
      cases hGT : GetType m instruction.type_id with
      | none => rw [hGT] at hwt2; simp at hwt2
      | some t =>
        rw [hGT] at hwt2
        cases t with
        | Vector c n =>
          rcases hop with h | h | h <;>
            simp [hGT, h, SpvType.AsVector, SpvType.AsInteger, GetRequiredFreshIdCount]
        | Float fw => simp [SpvType.AsVector, SpvType.AsInteger] at hwt2
        | OtherType c => simp [SpvType.AsVector, SpvType.AsInteger] at hwt2
        | Integer w sg =>
          have hreq : GetRequiredFreshIdCount m instruction = some (4 * w - 1) := by
            rcases hop with h | h | h <;>
              simp [GetRequiredFreshIdCount, h, hGT, SpvType.AsInteger]
          by_cases hc : ∃ i < w, MaybeGetIntegerConstant m i = 0
          · simp [hop, hGT, SpvType.AsVector, SpvType.AsInteger, hc, hreq]
          · by_cases hlen : msg.fresh_ids.length = 4 * w - 1
            · by_cases hfr : ∃ id ∈ msg.fresh_ids, IsFreshId m id = false
              · simp [hop, hGT, SpvType.AsVector, SpvType.AsInteger, hc, hreq, hlen, hfr]
              · have h1 : ∀ i, i < w → ¬ MaybeGetIntegerConstant m i = 0 := by
                  push_neg at hc
                  exact hc
                have h2 : ∀ id ∈ msg.fresh_ids, IsFreshId m id = true := by
                  intro x hx
                  rcases Bool.eq_false_or_eq_true (IsFreshId m x) with h | h
                  · exact h
                  · exact absurd ⟨x, hx, h⟩ hfr
                simp [hop, hGT, SpvType.AsVector, SpvType.AsInteger, hc, hreq, hlen, hfr]
                exact ⟨h1, h2⟩
            · simp [hop, hGT, SpvType.AsVector, SpvType.AsInteger, hc, hreq, hlen]
    · simp [hop]

/-- C3 (amended): for every module, context and descriptor whose target —
when defined with a supported opcode — has a result type resolving to a
vector or scalar-integer type, `IsApplicable` returns `false` exactly when
one of the claim's conditions (`specFailCond`, checked by the source in
the claim's order, short-circuiting) holds, and returns `true` otherwise.
Without that typing restriction the checker can return no boolean at all
(see the counterexample). -/
theorem C3_applicability_iff (m : IRModule)
    (msg : TransformationAddBitInstructionSynonym)
    (hwt : wellTypedTarget m msg = true) :
    (IsApplicable m msg = some false ↔ specFailCond m msg = true) ∧
    (IsApplicable m msg = some true ↔ specFailCond m msg = false) := by
  rw [isApplicable_wt m msg hwt]
  cases h : specFailCond m msg <;> simp

/-- Witness for C3 at the concrete applicable width-8 module. -/
theorem C3_applicability_iff_witness :
    wellTypedTarget exM exMsg = true ∧
    ((IsApplicable exM exMsg = some false ↔ specFailCond exM exMsg = true) ∧
     (IsApplicable exM exMsg = some true ↔ specFailCond exM exMsg = false)) :=
  ⟨by decide, C3_applicability_iff exM exMsg (by decide)⟩

/-- Counterexample to C3 as stated: in `c3M` the target is defined, its
opcode is supported, and none of the claim's failure conditions holds
(`specFailCond` is `false`), yet `IsApplicable` does not return `true` —
it dereferences a null `GetType` result (modelled as `none`). -/
theorem C3_applicability_iff_counterexample :
    IsApplicable c3M c3Msg = none ∧ specFailCond c3M c3Msg = false ∧
    IsApplicable c3M c3Msg ≠ some true := by
  exact ⟨by decide, by decide, by decide⟩

/-- C8 (amended): `IsApplicable` returns a boolean — never crashing — for
every module, context and descriptor whose target's result type resolves
to a vector or scalar-integer type; for a scalar non-integer result type
(such as a float) the source instead dereferences the null result of
`AsInteger()` (see the counterexample), rather than returning `false`. -/
theorem C8_checker_returns_boolean (m : IRModule)
    (msg : TransformationAddBitInstructionSynonym)
    (hwt : wellTypedTarget m msg = true) :
    ∃ b, IsApplicable m msg = some b :=
  ⟨! specFailCond m msg, isApplicable_wt m msg hwt⟩

/-- Witness for C8 at a vector-typed target: the checker returns a
boolean (indeed `false`). -/
theorem C8_checker_returns_boolean_witness :
    wellTypedTarget vecM vecMsg = true ∧ ∃ b, IsApplicable vecM vecMsg = some b :=
  ⟨by decide, C8_checker_returns_boolean vecM vecMsg (by decide)⟩

/-- Counterexample to C8 as stated: in `c8M` the target's result type is
a scalar 32-bit float; the checker neither returns `false` nor any other
boolean — the modelled execution is the null dereference `none`. -/
theorem C8_checker_returns_boolean_counterexample :
    GetDef c8M c8Msg.instruction_result_id = some c8Target ∧
    GetType c8M c8Target.type_id = some (SpvType.Float 32) ∧
    IsApplicable c8M c8Msg = none := by
  exact ⟨by decide, by decide, by decide⟩

theorem headD_eq_getD (l : List Nat) (d : Nat) : l.headD d = l.getD 0 d := by
  cases l <;> rfl

theorem tail_getD (l : List Nat) (k d : Nat) : l.tail.getD k d = l.getD (k + 1) d := by
  cases l <;> simp

theorem drop_getD (l : List Nat) : ∀ (n k d : Nat),
    (l.drop n).getD k d = l.getD (n + k) d := by
  induction l with
  | nil => intro n k d; simp
  | cons x xs ih =>
    intro n k d
    cases n with
    | zero => simp
    | succ n =>
      have := ih n k d
      simpa [Nat.succ_add] using this

theorem drop_tail (l : List Nat) (n : Nat) : (l.drop n).tail = l.drop (n + 1) := by
  rw [← List.drop_drop, List.drop_one]

theorem range_map_getD (n : Nat) (g : Nat → Nat) (k : Nat) (hk : k < n) :
    ((List.range n).map g).getD k 0 = g k := by
  induction n with
  | zero => omega
  | succ n ih =>
    rw [List.range_succ, List.map_append]
    by_cases h : k < n
    · rw [List.getD_eq_getElem?_getD, List.getElem?_append_left (by simpa using h),
        ← List.getD_eq_getElem?_getD]
      exact ih h
    · have hkn : k = n := by omega
      subst hkn
      rw [List.getD_eq_getElem?_getD, List.getElem?_append_right (by simp),
        List.length_map, List.length_range]
      simp

theorem tail_tail_tail (l : List Nat) : l.tail.tail.tail = l.drop 3 := by
  cases l with
  | nil => rfl
  | cons a l1 =>
    cases l1 with
    | nil => rfl
    | cons b l2 =>
      cases l2 with
      | nil => rfl
      | cons c l3 => rfl

theorem bitLoop_eq (bi : Instruction) (countId : Nat) (cf : Nat → Nat)
    (a_id b_id : Nat) (hops : bi.in_operands = [a_id, b_id]) :
    ∀ (n start : Nat) (fresh : List Nat),
      bitLoop bi countId cf start n fresh =
        ((List.range n).flatMap (fun t =>
            [ { opcode := SpvOp.BitFieldUExtract, type_id := bi.type_id,
                result_id := fresh.getD (3 * t) 0,
                in_operands := [a_id, cf (start + t), countId] },
              { opcode := SpvOp.BitFieldUExtract, type_id := bi.type_id,
                result_id := fresh.getD (3 * t + 1) 0,
                in_operands := [b_id, cf (start + t), countId] },
              { opcode := bi.opcode, type_id := bi.type_id,
                result_id := fresh.getD (3 * t + 2) 0,
                in_operands := [fresh.getD (3 * t) 0, fresh.getD (3 * t + 1) 0] } ]),
         (List.range n).map (fun t => fresh.getD (3 * t + 2) 0),
         fresh.drop (3 * n)) := by
  intro n
  induction n with
  | zero => intro start fresh; simp [bitLoop]
  | succ n ih =>
    intro start fresh
    simp only [bitLoop]
    rw [hops]
    simp only [extractOperands]
    rw [ih (start + 1) fresh.tail.tail.tail]
    rw [List.range_succ_eq_map]
    simp only [List.flatMap_cons, List.flatMap_map, List.map_cons, List.map_map,
      List.cons_append, List.nil_append]
    have e0 : fresh.headD 0 = fresh.getD 0 0 := by rw [headD_eq_getD]
    have e1 : fresh.tail.headD 0 = fresh.getD 1 0 := by
      rw [headD_eq_getD, tail_getD]
    have e2 : fresh.tail.tail.headD 0 = fresh.getD 2 0 := by
      rw [headD_eq_getD, tail_getD, tail_getD]
    have efun : ∀ t : Nat, fresh.tail.tail.tail.getD t 0 = fresh.getD (3 + t) 0 := by
      intro t; rw [tail_tail_tail, drop_getD]
    have edrop : fresh.tail.tail.tail.drop (3 * n) = fresh.drop (3 * (n + 1)) := by
      rw [tail_tail_tail, List.drop_drop]
      congr 1
      ring
    simp only [e0, e1, e2, efun, edrop, Function.comp_def, List.getD_cons_zero,
      List.getD_cons_succ, Nat.succ_eq_add_one, Nat.add_zero]
    have i1 : ∀ t : Nat, 3 + 3 * t = 3 * (t + 1) := fun t => by ring
    have i2 : ∀ t : Nat, 3 + (3 * t + 1) = 3 * (t + 1) + 1 := fun t => by ring
    have i3 : ∀ t : Nat, 3 + (3 * t + 2) = 3 * (t + 1) + 2 := fun t => by ring
    have i4 : ∀ t : Nat, start + 1 + t = start + (t + 1) := fun t => by ring
    simp only [i1, i2, i3, i4]

theorem insertLoop_eq (bi : Instruction) (countId : Nat) (cf : Nat → Nat)
    (bids : List Nat) :
    ∀ (n i prev : Nat) (fresh : List Nat),
      insertLoop bi countId cf bids i n prev fresh =
        ((List.range n).map (fun t =>
          { opcode := SpvOp.BitFieldInsert, type_id := bi.type_id,
            result_id := fresh.getD t 0,
            in_operands := [if t = 0 then prev else fresh.getD (t - 1) 0,
                            bids.getD (i + t) 0, cf (i + t), countId] }),
         if n = 0 then prev else fresh.getD (n - 1) 0) := by
  intro n
  induction n with
  | zero => intro i prev fresh; simp [insertLoop]
  | succ n ih =>
    intro i prev fresh
    simp only [insertLoop]
    rw [ih (i + 1) (fresh.headD 0) fresh.tail]
    rw [List.range_succ_eq_map]
    have hcase : ∀ t : Nat,
        (if t = 0 then fresh.headD 0 else fresh.tail.getD (t - 1) 0) =
          fresh.getD t 0 := by
      intro t
      cases t with
      | zero => exact headD_eq_getD fresh 0
      | succ s => exact tail_getD fresh s 0
    have i5 : ∀ t : Nat, i + 1 + t = i + (t + 1) := fun t => by ring
    have e0 : fresh.headD 0 = fresh.getD 0 0 := by rw [headD_eq_getD]
    have etail : ∀ t : Nat, fresh.tail.getD t 0 = fresh.getD (t + 1) 0 := by
      intro t; rw [tail_getD]
    simp only [List.map_cons, List.map_map, Function.comp_def, Nat.succ_eq_add_one,
      hcase, i5, etail, e0, Nat.add_zero]
    simp
    refine ⟨fun a _ => ?_, ?_⟩
    · cases a with
      | zero => simp
      | succ s => simp
    · cases n with
      | zero => simp
      | succ s => simp

theorem specPhaseB_cons (tid : Nat) (cf f : Nat → Nat) (w : Nat) (hw : 2 ≤ w) :
    specPhaseB tid cf f w (w - 1) =
      { opcode := SpvOp.BitFieldInsert, type_id := tid, result_id := f (3 * w),
        in_operands := [f 2, f 5, cf 1, cf 1] } ::
      (List.range (w - 2)).map (fun t =>
        { opcode := SpvOp.BitFieldInsert, type_id := tid,
          result_id := f (3 * w + (t + 1)),
          in_operands := [f (3 * w + t), f (3 * (t + 2) + 2),
                          cf (t + 2), cf 1] }) := by
  have hw1 : w - 1 = (w - 2) + 1 := by omega
  rw [specPhaseB, hw1, List.range_succ_eq_map, List.map_cons, List.map_map]
  have h0 : specInsert tid cf f w 0 =
      { opcode := SpvOp.BitFieldInsert, type_id := tid, result_id := f (3 * w),
        in_operands := [f 2, f 5, cf 1, cf 1] } := by
    simp [specInsert]
  rw [h0]
  congr 1

theorem addBitwiseSynonym_eq (m : IRModule) (facts : List SynFact) (bi : Instruction)
    (fresh_ids : List Nat) (a_id b_id w : Nat) (sg : Bool)
    (hops : bi.in_operands = [a_id, b_id])
    (hty : GetType m bi.type_id = some (SpvType.Integer w sg))
    (hw : 2 ≤ w) :
    AddBitwiseSynonym m facts bi fresh_ids =
      some { module := InvalidateAnalyses
               ((specChain bi.opcode bi.type_id a_id b_id
                   (fun v => MaybeGetIntegerConstant m v)
                   (fun k => fresh_ids.getD k 0) w).foldl
                 (applyStep bi.result_id) m),
             facts := facts ++
               [((fresh_ids.getD (4 * w - 2) 0, []), (bi.result_id, []))],
             created := specChain bi.opcode bi.type_id a_id b_id
               (fun v => MaybeGetIntegerConstant m v)
               (fun k => fresh_ids.getD k 0) w } := by
  unfold AddBitwiseSynonym
  rw [hty]
  simp only [Option.some_bind, SpvType.AsInteger]
  rw [bitLoop_eq bi (MaybeGetIntegerConstant m 1) (fun i => MaybeGetIntegerConstant m i)
    a_id b_id hops w 0 fresh_ids]
  dsimp only
  rw [insertLoop_eq bi (MaybeGetIntegerConstant m 1) (fun i => MaybeGetIntegerConstant m i)
    ((List.range w).map (fun t => fresh_ids.getD (3 * t + 2) 0)) (w - 2) 2
    ((fresh_ids.drop (3 * w)).headD 0) (fresh_ids.drop (3 * w)).tail]
  dsimp only
  have hH : (List.drop (3 * w) fresh_ids).headD 0 = fresh_ids.getD (3 * w) 0 := by
    rw [headD_eq_getD, drop_getD, Nat.add_zero]
  have hT : ∀ t : Nat, (List.drop (3 * w) fresh_ids).tail.getD t 0 =
      fresh_ids.getD (3 * w + 1 + t) 0 := by
    intro t; rw [drop_tail, drop_getD]
  have hg0 : (List.map (fun t => fresh_ids.getD (3 * t + 2) 0) (List.range w)).getD 0 0 =
      fresh_ids.getD 2 0 := by
    rw [range_map_getD w _ 0 (by omega)]
  have hg1 : (List.map (fun t => fresh_ids.getD (3 * t + 2) 0) (List.range w)).getD 1 0 =
      fresh_ids.getD 5 0 := by
    rw [range_map_getD w _ 1 (by omega)]
  simp only [specChain, specPhaseA, specTriple, specPhaseB_cons bi.type_id
    (fun v => MaybeGetIntegerConstant m v) (fun k => fresh_ids.getD k 0) w hw,
    Nat.zero_add, hH, hT, hg0, hg1]
  have hMap : List.map (fun t =>
      { opcode := SpvOp.BitFieldInsert, type_id := bi.type_id,
        result_id := fresh_ids.getD (3 * w + 1 + t) 0,
        in_operands :=
          [if t = 0 then fresh_ids.getD (3 * w) 0 else fresh_ids.getD (3 * w + 1 + (t - 1)) 0,
           (List.map (fun t2 => fresh_ids.getD (3 * t2 + 2) 0) (List.range w)).getD (2 + t) 0,
           MaybeGetIntegerConstant m (2 + t), MaybeGetIntegerConstant m 1] } : Nat → Instruction)
      (List.range (w - 2)) =
    List.map (fun t =>
      { opcode := SpvOp.BitFieldInsert, type_id := bi.type_id,
        result_id := fresh_ids.getD (3 * w + (t + 1)) 0,
        in_operands :=
          [fresh_ids.getD (3 * w + t) 0, fresh_ids.getD (3 * (t + 2) + 2) 0,
           MaybeGetIntegerConstant m (t + 2), MaybeGetIntegerConstant m 1] } : Nat → Instruction)
      (List.range (w - 2)) := by
    apply List.map_congr_left
    intro t ht
    rw [List.mem_range] at ht
    rw [range_map_getD w _ (2 + t) (by omega)]
    have k1 : 3 * w + 1 + t = 3 * w + (t + 1) := by omega
    have k2 : 3 * (2 + t) + 2 = 3 * (t + 2) + 2 := by omega
    have k3 : 2 + t = t + 2 := by omega
    rw [k1, k2, k3]
    cases t with
    | zero => simp
    | succ s =>
      have k4 : 3 * w + 1 + (s + 1 - 1) = 3 * w + (s + 1) := by omega
      simp [k4]
      rw [show 3 * w + 1 + s = 3 * w + (s + 1) from by omega]
  have hLast : (if w - 2 = 0 then fresh_ids.getD (3 * w) 0
      else fresh_ids.getD (3 * w + 1 + (w - 2 - 1)) 0) = fresh_ids.getD (4 * w - 2) 0 := by
    by_cases h2 : w - 2 = 0
    · have hw2 : w = 2 := by omega
      subst hw2
      norm_num
    · rw [if_neg h2]
      congr 1
      omega
  rw [hMap, hLast]
  rfl

theorem apply_eq (m : IRModule) (facts : List SynFact)
    (msg : TransformationAddBitInstructionSynonym) (bi : Instruction)
    (a_id b_id w : Nat) (sg : Bool)
    (hdef : GetDef m msg.instruction_result_id = some bi)
    (hop : bi.opcode = SpvOp.BitwiseOr ∨ bi.opcode = SpvOp.BitwiseXor ∨
      bi.opcode = SpvOp.BitwiseAnd)
    (hops : bi.in_operands = [a_id, b_id])
    (hty : GetType m bi.type_id = some (SpvType.Integer w sg))
    (hw : 2 ≤ w) :
    Apply m facts msg =
      some { module := InvalidateAnalyses (InvalidateAnalyses
               ((specChain bi.opcode bi.type_id a_id b_id
                   (fun v => MaybeGetIntegerConstant m v)
                   (fun k => msg.fresh_ids.getD k 0) w).foldl
                 (applyStep bi.result_id) m)),
             facts := facts ++
               [((msg.fresh_ids.getD (4 * w - 2) 0, []), (bi.result_id, []))],
             created := specChain bi.opcode bi.type_id a_id b_id
               (fun v => MaybeGetIntegerConstant m v)
               (fun k => msg.fresh_ids.getD k 0) w } := by
  unfold Apply
  rw [hdef]
  have hadd := addBitwiseSynonym_eq m facts bi msg.fresh_ids a_id b_id w sg hops hty hw
  rcases hop with h | h | h <;>
    (simp only [h] at hadd ⊢; rw [hadd]; rfl)

theorem getDef_result_id (m : IRModule) (id : Nat) (bi : Instruction)
    (h : GetDef m id = some bi) : bi.result_id = id := by
  have := List.find?_some h
  simpa using this

theorem resultIds_phaseA (op : SpvOp) (tid a_id b_id : Nat) (cf f : Nat → Nat) :
    ∀ n : Nat, (specPhaseA op tid a_id b_id cf f n).map (fun i => i.result_id) =
      (List.range (3 * n)).map f := by
  intro n
  induction n with
  | zero => rfl
  | succ n ih =>
    rw [specPhaseA, List.range_succ, List.flatMap_append, List.map_append]
    rw [show specPhaseA op tid a_id b_id cf f n =
      (List.range n).flatMap (specTriple op tid a_id b_id cf f) from rfl] at ih
    rw [ih]
    have h3 : 3 * (n + 1) = 3 * n + 1 + 1 + 1 := by omega
    rw [h3, List.range_succ, List.range_succ, List.range_succ, List.map_append,
      List.map_append, List.map_append, List.append_assoc, List.append_assoc]
    congr 1

theorem specChain_resultIds (op : SpvOp) (tid a_id b_id : Nat) (cf f : Nat → Nat)
    (w : Nat) (hw : 2 ≤ w) :
    (specChain op tid a_id b_id cf f w).map (fun i => i.result_id) =
      (List.range (4 * w - 1)).map f := by
  rw [specChain, List.map_append, resultIds_phaseA]
  have hB : (specPhaseB tid cf f w (w - 1)).map (fun i => i.result_id) =
      (List.range (w - 1)).map (fun k => f (3 * w + k)) := by
    rw [specPhaseB, List.map_map]
    rfl
  rw [hB]
  have h4 : 4 * w - 1 = 3 * w + (w - 1) := by omega
  rw [h4, List.range_add, List.map_append, List.map_map]
  rfl

theorem specChain_length (op : SpvOp) (tid a_id b_id : Nat) (cf f : Nat → Nat)
    (w : Nat) (hw : 2 ≤ w) :
    (specChain op tid a_id b_id cf f w).length = 4 * w - 1 := by
  have h := specChain_resultIds op tid a_id b_id cf f w hw
  have h1 := congrArg List.length h
  simpa using h1

theorem specChain_typeIds (op : SpvOp) (tid a_id b_id : Nat) (cf f : Nat → Nat)
    (w : Nat) :
    ∀ inst ∈ specChain op tid a_id b_id cf f w, inst.type_id = tid := by
  intro inst h
  rw [specChain, List.mem_append] at h
  rcases h with h | h
  · rw [specPhaseA, List.mem_flatMap] at h
    obtain ⟨i, _, hmem⟩ := h
    simp only [specTriple, List.mem_cons, List.mem_singleton] at hmem
    rcases hmem with rfl | rfl | rfl | hfalse
    · rfl
    · rfl
    · rfl
    · simp at hfalse
  · rw [specPhaseB, List.mem_map] at h
    obtain ⟨k, _, hk⟩ := h
    rw [← hk]
    rfl

theorem specChain_getLast (op : SpvOp) (tid a_id b_id : Nat) (cf f : Nat → Nat)
    (w : Nat) (hw : 2 ≤ w) :
    (specChain op tid a_id b_id cf f w).getLast? =
      some (specInsert tid cf f w (w - 2)) := by
  rw [specChain, List.getLast?_append]
  have hB : (specPhaseB tid cf f w (w - 1)).getLast? =
      some (specInsert tid cf f w (w - 2)) := by
    rw [specPhaseB]
    have hw1 : w - 1 = (w - 2) + 1 := by omega
    rw [hw1, List.range_succ, List.map_append]
    simp
  rw [hB]
  rfl

/-- C4: for a target bitwise instruction of width `w`, `Apply` emits
exactly the chain described by the spec (`specChain`: for each offset
`0 .. w-1` an unsigned one-bit extract per operand followed by the
original opcode on the two extracted values, then a first insert with
combine 0 as base and combine 1 at offset 1, then for each further offset
an insert chaining on the previous insert's result), `4 * w - 1`
instructions in total, whose result ids are the supplied fresh ids taken
strictly in sequence order by a single forward cursor (instruction `k`
consumes `fresh_ids[k]`). -/
theorem C4_apply_emits_spec_chain (m : IRModule) (facts : List SynFact)
    (msg : TransformationAddBitInstructionSynonym) (bi : Instruction)
    (a_id b_id w : Nat) (sg : Bool)
    (hdef : GetDef m msg.instruction_result_id = some bi)
    (hop : bi.opcode = SpvOp.BitwiseOr ∨ bi.opcode = SpvOp.BitwiseXor ∨
      bi.opcode = SpvOp.BitwiseAnd)
    (hops : bi.in_operands = [a_id, b_id])
    (hty : GetType m bi.type_id = some (SpvType.Integer w sg))
    (hw : 2 ≤ w) :
    ∃ out, Apply m facts msg = some out ∧
      out.created = specChain bi.opcode bi.type_id a_id b_id
        (fun v => MaybeGetIntegerConstant m v) (fun k => msg.fresh_ids.getD k 0) w ∧
      out.created.length = 4 * w - 1 ∧
      out.created.map (fun i => i.result_id) =
        (List.range (4 * w - 1)).map (fun k => msg.fresh_ids.getD k 0) := by
  refine ⟨_, apply_eq m facts msg bi a_id b_id w sg hdef hop hops hty hw, rfl, ?_, ?_⟩
  · exact specChain_length bi.opcode bi.type_id a_id b_id _ _ w hw
  · exact specChain_resultIds bi.opcode bi.type_id a_id b_id _ _ w hw

/-- Witness for C4 at the concrete width-8 XOR module. -/
theorem C4_apply_emits_spec_chain_witness :
    (GetDef exM exMsg.instruction_result_id = some exTarget ∧
     exTarget.in_operands = [30, 31] ∧
     GetType exM exTarget.type_id = some (SpvType.Integer 8 false)) ∧
    ∃ out, Apply exM [] exMsg = some out ∧
      out.created = specChain exTarget.opcode exTarget.type_id 30 31
        (fun v => MaybeGetIntegerConstant exM v)
        (fun k => exMsg.fresh_ids.getD k 0) 8 ∧
      out.created.length = 4 * 8 - 1 ∧
      out.created.map (fun i => i.result_id) =
        (List.range (4 * 8 - 1)).map (fun k => exMsg.fresh_ids.getD k 0) :=
  ⟨⟨by decide, by decide, by decide⟩,
    C4_apply_emits_spec_chain exM [] exMsg exTarget 30 31 8 false (by decide)
      (by decide) (by decide) (by decide) (by decide)⟩

/-- C5: after a successful `Apply` the fact store is the old fact store
extended with exactly one Synonym Fact relating the final bit-field-insert
instruction's result id (empty access path) to the target instruction's
result id (empty access path); every previously present fact is still
present — facts are only added, never removed. -/
theorem C5_synonym_fact_recorded (m : IRModule) (facts : List SynFact)
    (msg : TransformationAddBitInstructionSynonym) (bi : Instruction)
    (a_id b_id w : Nat) (sg : Bool)
    (hdef : GetDef m msg.instruction_result_id = some bi)
    (hop : bi.opcode = SpvOp.BitwiseOr ∨ bi.opcode = SpvOp.BitwiseXor ∨
      bi.opcode = SpvOp.BitwiseAnd)
    (hops : bi.in_operands = [a_id, b_id])
    (hty : GetType m bi.type_id = some (SpvType.Integer w sg))
    (hw : 2 ≤ w) :
    ∃ out lastInst, Apply m facts msg = some out ∧
      out.created.getLast? = some lastInst ∧
      lastInst.opcode = SpvOp.BitFieldInsert ∧
      out.facts = facts ++
        [((lastInst.result_id, []), (msg.instruction_result_id, []))] ∧
      ∀ fct ∈ facts, fct ∈ out.facts := by
  refine ⟨_, specInsert bi.type_id (fun v => MaybeGetIntegerConstant m v)
      (fun k => msg.fresh_ids.getD k 0) w (w - 2),
    apply_eq m facts msg bi a_id b_id w sg hdef hop hops hty hw, ?_, rfl, ?_, ?_⟩
  · exact specChain_getLast bi.opcode bi.type_id a_id b_id _ _ w hw
  · have hrid := getDef_result_id m msg.instruction_result_id bi hdef
    rw [hrid]
    have hidx : 3 * w + (w - 2) = 4 * w - 2 := by omega
    simp only [specInsert, hidx]
  · intro fct hf
    simp only [List.mem_append]
    exact Or.inl hf

/-- Witness for C5 at the concrete width-8 XOR module. -/
theorem C5_synonym_fact_recorded_witness :
    (GetDef exM exMsg.instruction_result_id = some exTarget ∧
     GetType exM exTarget.type_id = some (SpvType.Integer 8 false)) ∧
    ∃ out lastInst, Apply exM [((3, []), (4, []))] exMsg = some out ∧
      out.created.getLast? = some lastInst ∧
      lastInst.opcode = SpvOp.BitFieldInsert ∧
      out.facts = [((3, []), (4, []))] ++
        [((lastInst.result_id, []), (exMsg.instruction_result_id, []))] ∧
      ∀ fct ∈ [((3, []), (4, []))], fct ∈ out.facts :=
  ⟨⟨by decide, by decide⟩,
    C5_synonym_fact_recorded exM [((3, []), (4, []))] exMsg exTarget 30 31 8 false
      (by decide) (by decide) (by decide) (by decide) (by decide)⟩

/-- C10: every instruction created by `Apply` — each bit-field-extract,
each per-bit combine and each bit-field-insert — carries the same result
type id as the target bit instruction (the full-width scalar integer
type); in particular the single-bit extracted values are typed at full
width. -/
theorem C10_created_share_target_type (m : IRModule) (facts : List SynFact)
    (msg : TransformationAddBitInstructionSynonym) (bi : Instruction)
    (a_id b_id w : Nat) (sg : Bool)
    (hdef : GetDef m msg.instruction_result_id = some bi)
    (hop : bi.opcode = SpvOp.BitwiseOr ∨ bi.opcode = SpvOp.BitwiseXor ∨
      bi.opcode = SpvOp.BitwiseAnd)
    (hops : bi.in_operands = [a_id, b_id])
    (hty : GetType m bi.type_id = some (SpvType.Integer w sg))
    (hw : 2 ≤ w) :
    ∃ out, Apply m facts msg = some out ∧
      ∀ inst ∈ out.created, inst.type_id = bi.type_id := by
  refine ⟨_, apply_eq m facts msg bi a_id b_id w sg hdef hop hops hty hw, ?_⟩
  exact specChain_typeIds bi.opcode bi.type_id a_id b_id _ _ w

/-- Witness for C10 at the concrete width-8 XOR module. -/
theorem C10_created_share_target_type_witness :
    (GetDef exM exMsg.instruction_result_id = some exTarget ∧
     GetType exM exTarget.type_id = some (SpvType.Integer 8 false)) ∧
    ∃ out, Apply exM [] exMsg = some out ∧
      ∀ inst ∈ out.created, inst.type_id = exTarget.type_id :=
  ⟨⟨by decide, by decide⟩,
    C10_created_share_target_type exM [] exMsg exTarget 30 31 8 false (by decide)
      (by decide) (by decide) (by decide) (by decide)⟩

theorem find?_decomp (l : List Instruction) (p : Instruction → Bool) (x : Instruction)
    (h : l.find? p = some x) :
    ∃ l1 l2, l = l1 ++ x :: l2 ∧ ∀ y ∈ l1, ¬ p y = true := by
  induction l with
  | nil => simp at h
  | cons a t ih =>
    by_cases hpa : p a = true
    · rw [List.find?_cons_of_pos _ hpa] at h
      obtain rfl := Option.some.inj h
      exact ⟨[], t, rfl, by simp⟩
    · rw [List.find?_cons_of_neg _ (by simpa using hpa)] at h
      obtain ⟨l1, l2, rfl, hall⟩ := ih h
      refine ⟨a :: l1, l2, rfl, ?_⟩
      intro y hy
      rcases List.mem_cons.mp hy with rfl | hy2
      · exact hpa
      · exact hall y hy2

theorem insertBeforeList_skip (rid : Nat) (c bi : Instruction)
    (hbi : bi.result_id = rid) :
    ∀ (l1 l2 : List Instruction), (∀ y ∈ l1, y.result_id ≠ rid) →
      insertBeforeList rid c (l1 ++ bi :: l2) = l1 ++ c :: bi :: l2 := by
  intro l1
  induction l1 with
  | nil =>
    intro l2 _
    simp [insertBeforeList, hbi]
  | cons a t ih =>
    intro l2 hall
    have ha : a.result_id ≠ rid := hall a (by simp)
    simp only [List.cons_append, insertBeforeList, if_neg ha, List.append_eq]
    rw [ih l2 (fun y hy => hall y (by simp [hy]))]

theorem foldl_applyStep_instructions (rid : Nat) (bi : Instruction)
    (hbi : bi.result_id = rid) :
    ∀ (created : List Instruction) (mm : IRModule) (l1 l2 : List Instruction),
      mm.instructions = l1 ++ bi :: l2 →
      (∀ y ∈ l1, y.result_id ≠ rid) →
      (∀ c ∈ created, c.result_id ≠ rid) →
      (created.foldl (applyStep rid) mm).instructions = l1 ++ created ++ bi :: l2 := by
  intro created
  induction created with
  | nil =>
    intro mm l1 l2 hm _ _
    simpa using hm
  | cons c cs ih =>
    intro mm l1 l2 hm hl1 hcr
    have hstep : (applyStep rid mm c).instructions = (l1 ++ [c]) ++ bi :: l2 := by
      show insertBeforeList rid c mm.instructions = (l1 ++ [c]) ++ bi :: l2
      rw [hm, insertBeforeList_skip rid c bi hbi l1 l2 hl1]
      simp
    have hl1c : ∀ y ∈ l1 ++ [c], y.result_id ≠ rid := by
      intro y hy
      rcases List.mem_append.mp hy with hy | hy
      · exact hl1 y hy
      · rw [List.mem_singleton.mp hy]
        exact hcr c (by simp)
    have hcs : ∀ d ∈ cs, d.result_id ≠ rid := fun d hd => hcr d (by simp [hd])
    rw [List.foldl_cons, ih (applyStep rid mm c) (l1 ++ [c]) l2 hstep hl1c hcs]
    simp

theorem defBeforeUse_mono :
    ∀ (l : List Instruction) (low1 low2 : Nat → Prop),
      (∀ x, low1 x → low2 x) → DefBeforeUse low1 l → DefBeforeUse low2 l := by
  intro l
  induction l with
  | nil => intro low1 low2 _ _; trivial
  | cons i rest ih =>
    intro low1 low2 h hd
    obtain ⟨hops, hrest⟩ := hd
    refine ⟨fun x hx => h x (hops x hx), ?_⟩
    exact ih _ _ (fun x hx => hx.imp (h x) id) hrest

theorem defBeforeUse_append :
    ∀ (l1 l2 : List Instruction) (low : Nat → Prop),
      DefBeforeUse low l1 →
      DefBeforeUse (fun x => low x ∨ x ∈ l1.map (fun i => i.result_id)) l2 →
      DefBeforeUse low (l1 ++ l2) := by
  intro l1
  induction l1 with
  | nil =>
    intro l2 low _ h2
    refine defBeforeUse_mono l2 _ low ?_ h2
    intro x hx
    rcases hx with hx | hx
    · exact hx
    · simp at hx
  | cons i t ih =>
    intro l2 low hd h2
    obtain ⟨hops, ht⟩ := hd
    refine ⟨hops, ?_⟩
    refine ih l2 (fun x => low x ∨ x = i.result_id) ht ?_
    refine defBeforeUse_mono l2 _ _ ?_ h2
    intro x hx
    rcases hx with hx | hx
    · exact Or.inl (Or.inl hx)
    · simp only [List.map_cons, List.mem_cons] at hx
      rcases hx with hx | hx
      · exact Or.inl (Or.inr hx)
      · exact Or.inr hx

theorem specPhaseA_dbu (op : SpvOp) (tid a_id b_id : Nat) (cf f : Nat → Nat)
    (low : Nat → Prop) (hla : low a_id) (hlb : low b_id) (hl1 : low (cf 1)) :
    ∀ n, (∀ i, i < n → low (cf i)) →
      DefBeforeUse low (specPhaseA op tid a_id b_id cf f n) := by
  intro n
  induction n with
  | zero => intro _; trivial
  | succ n ih =>
    intro hlc
    rw [specPhaseA, List.range_succ, List.flatMap_append]
    simp only [List.flatMap_cons, List.flatMap_nil, List.append_nil]
    refine defBeforeUse_append _ _ low (ih (fun i hi => hlc i (by omega))) ?_
    simp only [specTriple, DefBeforeUse]
    refine ⟨?_, ?_, ?_, trivial⟩
    · intro x hx
      simp only [List.mem_cons, List.not_mem_nil, or_false] at hx
      rcases hx with rfl | rfl | rfl
      · exact Or.inl hla
      · exact Or.inl (hlc n (by omega))
      · exact Or.inl hl1
    · intro x hx
      simp only [List.mem_cons, List.not_mem_nil, or_false] at hx
      rcases hx with rfl | rfl | rfl
      · exact Or.inl (Or.inl hlb)
      · exact Or.inl (Or.inl (hlc n (by omega)))
      · exact Or.inl (Or.inl hl1)
    · intro x hx
      simp only [List.mem_cons, List.not_mem_nil, or_false] at hx
      rcases hx with rfl | rfl
      · exact Or.inl (Or.inr rfl)
      · exact Or.inr rfl

theorem specPhaseB_resultIds (tid : Nat) (cf f : Nat → Nat) (w n : Nat) :
    (specPhaseB tid cf f w n).map (fun j => j.result_id) =
      (List.range n).map (fun k => f (3 * w + k)) := by
  rw [specPhaseB, List.map_map]
  rfl

theorem specPhaseB_dbu (tid : Nat) (cf f : Nat → Nat) (w : Nat)
    (low2 : Nat → Prop)
    (hbase : ∀ i, i < w → low2 (f (3 * i + 2)))
    (hc : ∀ i, i < w → low2 (cf i)) (hl1 : low2 (cf 1)) (hw : 2 ≤ w) :
    ∀ n, n ≤ w - 1 → DefBeforeUse low2 (specPhaseB tid cf f w n) := by
  intro n
  induction n with
  | zero => intro _; trivial
  | succ n ih =>
    intro hn
    rw [specPhaseB, List.range_succ, List.map_append]
    have hBn : (List.range n).map (specInsert tid cf f w) = specPhaseB tid cf f w n := by
      rw [specPhaseB]
    rw [hBn]
    refine defBeforeUse_append _ _ low2 (ih (by omega)) ?_
    simp only [List.map_cons, List.map_nil, DefBeforeUse]
    refine ⟨?_, trivial⟩
    intro x hx
    simp only [specInsert, List.mem_cons, List.not_mem_nil, or_false] at hx
    rcases hx with rfl | rfl | rfl | rfl
    · by_cases hn0 : n = 0
      · subst hn0
        simp only [if_pos rfl]
        exact Or.inl (hbase 0 (by omega))
      · rw [if_neg hn0]
        refine Or.inr ?_
        rw [specPhaseB_resultIds]
        refine List.mem_map.mpr ⟨n - 1, List.mem_range.mpr (by omega), ?_⟩
        congr 1
        omega
    · exact Or.inl (hbase (n + 1) (by omega))
    · exact Or.inl (hc (n + 1) (by omega))
    · exact Or.inl hl1

theorem specChain_dbu (op : SpvOp) (tid a_id b_id : Nat) (cf f : Nat → Nat)
    (w : Nat) (hw : 2 ≤ w) (low : Nat → Prop)
    (hla : low a_id) (hlb : low b_id) (hlc : ∀ i, i < w → low (cf i)) :
    DefBeforeUse low (specChain op tid a_id b_id cf f w) := by
  have hl1 : low (cf 1) := hlc 1 (by omega)
  rw [specChain]
  refine defBeforeUse_append _ _ low
    (specPhaseA_dbu op tid a_id b_id cf f low hla hlb hl1 w hlc) ?_
  have hmemA : ∀ i, i < w → f (3 * i + 2) ∈
      (specPhaseA op tid a_id b_id cf f w).map (fun j => j.result_id) := by
    intro i hi
    rw [resultIds_phaseA]
    exact List.mem_map.mpr ⟨3 * i + 2, List.mem_range.mpr (by omega), rfl⟩
  refine specPhaseB_dbu tid cf f w _ ?_ ?_ ?_ hw (w - 1) (by omega)
  · intro i hi
    exact Or.inr (hmemA i hi)
  · intro i hi
    exact Or.inl (hlc i hi)
  · exact Or.inl hl1

theorem requiredFreshIdCount_eq (m : IRModule) (bi : Instruction) (w : Nat) (sg : Bool)
    (hop : bi.opcode = SpvOp.BitwiseOr ∨ bi.opcode = SpvOp.BitwiseXor ∨
      bi.opcode = SpvOp.BitwiseAnd)
    (hty : GetType m bi.type_id = some (SpvType.Integer w sg)) :
    GetRequiredFreshIdCount m bi = some (4 * w - 1) := by
  rcases hop with h | h | h <;>
    simp [GetRequiredFreshIdCount, h, hty, SpvType.AsInteger]

theorem isApplicable_true_elim (m : IRModule)
    (msg : TransformationAddBitInstructionSynonym) (bi : Instruction)
    (w : Nat) (sg : Bool)
    (hdef : GetDef m msg.instruction_result_id = some bi)
    (hop : bi.opcode = SpvOp.BitwiseOr ∨ bi.opcode = SpvOp.BitwiseXor ∨
      bi.opcode = SpvOp.BitwiseAnd)
    (hty : GetType m bi.type_id = some (SpvType.Integer w sg))
    (h : IsApplicable m msg = some true) :
    (∀ i, i < w → MaybeGetIntegerConstant m i ≠ 0) ∧
    msg.fresh_ids.length = 4 * w - 1 ∧
    (∀ id ∈ msg.fresh_ids, IsFreshId m id = true) := by
  have hreq : GetRequiredFreshIdCount m bi = some (4 * w - 1) :=
    requiredFreshIdCount_eq m bi w sg hop hty
  unfold IsApplicable at h
  rw [hdef] at h
  dsimp only at h
  rw [if_neg (not_not_intro hop), hty] at h
  dsimp only at h
  simp only [SpvType.AsVector, SpvType.AsInteger, Option.isSome_none] at h
  rw [hreq] at h
  dsimp only at h
  by_cases hc : ((List.range w).any (fun i => MaybeGetIntegerConstant m i == 0)) = true
  · simp [hop, hc] at h
  · by_cases hlen : msg.fresh_ids.length = 4 * w - 1
    · by_cases hfr : (msg.fresh_ids.any fun id => ! IsFreshId m id) = true
      · simp [hop, hc, hlen, hfr] at h
      · refine ⟨?_, hlen, ?_⟩
        · intro i hi hzero
          apply hc
          rw [List.any_eq_true]
          exact ⟨i, List.mem_range.mpr hi, by simp [hzero]⟩
        · intro id hid
          cases hfi : IsFreshId m id with
          | true => rfl
          | false =>
            exfalso
            apply hfr
            rw [List.any_eq_true]
            exact ⟨id, hid, by simp [hfi]⟩
    · simp [hop, hc, hlen] at h

theorem getD_mem (l : List Nat) (n d : Nat) (h : n < l.length) : l.getD n d ∈ l := by
  rw [List.getD_eq_getElem?_getD]
  have he : l[n]? = some l[n] := List.getElem?_eq_getElem h
  rw [he]
  exact List.getElem_mem h

theorem isFreshId_getDef (m : IRModule) (id : Nat) (h : IsFreshId m id = true) :
    GetDef m id = none := by
  unfold IsFreshId at h
  simp only [Bool.and_eq_true] at h
  exact Option.isNone_iff_eq_none.mp h.1.1

theorem specChain_result_ids_ne_target (m : IRModule)
    (msg : TransformationAddBitInstructionSynonym) (bi : Instruction)
    (a_id b_id w : Nat)
    (hdef : GetDef m msg.instruction_result_id = some bi)
    (hfresh : ∀ id ∈ msg.fresh_ids, IsFreshId m id = true)
    (hlen : msg.fresh_ids.length = 4 * w - 1) (hw : 2 ≤ w) :
    ∀ c ∈ specChain bi.opcode bi.type_id a_id b_id
      (fun v => MaybeGetIntegerConstant m v) (fun k => msg.fresh_ids.getD k 0) w,
      c.result_id ≠ bi.result_id := by
  intro c hc hceq
  have hmem : c.result_id ∈ (specChain bi.opcode bi.type_id a_id b_id
      (fun v => MaybeGetIntegerConstant m v)
      (fun k => msg.fresh_ids.getD k 0) w).map (fun j => j.result_id) :=
    List.mem_map_of_mem _ hc
  rw [specChain_resultIds _ _ _ _ _ _ w hw] at hmem
  obtain ⟨k, hk, hfk⟩ := List.mem_map.mp hmem
  rw [List.mem_range] at hk
  have hin : msg.fresh_ids.getD k 0 ∈ msg.fresh_ids :=
    getD_mem msg.fresh_ids k 0 (by omega)
  have hf := hfresh _ hin
  have hnone := isFreshId_getDef m _ hf
  rw [hfk, hceq] at hnone
  rw [getDef_result_id m msg.instruction_result_id bi hdef] at hnone
  rw [hdef] at hnone
  exact Option.some_ne_none bi hnone

theorem mem_usedIds_of_instruction (m : IRModule) (inst : Instruction)
    (hin : inst ∈ m.instructions) (x : Nat) (hx : x ∈ inst.usedIds) :
    x ∈ m.usedIds := by
  unfold IRModule.usedIds
  rw [List.mem_append, List.mem_append]
  exact Or.inl (Or.inl (List.mem_flatMap.mpr ⟨inst, hin, hx⟩))

theorem constId_mem_usedIds (m : IRModule) (v : Nat)
    (h : MaybeGetIntegerConstant m v ≠ 0) :
    MaybeGetIntegerConstant m v ∈ m.usedIds := by
  unfold MaybeGetIntegerConstant at h ⊢
  cases hf : m.uint32_consts.find? (fun e => e.1 == v) with
  | none => simp [hf] at h
  | some e =>
    simp only [hf]
    unfold IRModule.usedIds
    rw [List.mem_append]
    refine Or.inr (List.mem_map.mpr ⟨e, ?_, rfl⟩)
    exact List.mem_of_find?_eq_some hf

/-- C7: `Apply` inserts all new instructions in program order directly
before the target instruction — the module's instruction list becomes
`l1 ++ created ++ target :: l2` where it was `l1 ++ target :: l2`, so the
target and every other pre-existing instruction stay in place verbatim
(nothing is removed or altered, the target keeps its opcode, result id,
type and operands) — and the created sequence is well-ordered for
definedness: every created instruction's operands are ids already used in
the module (the target's operands and the bit-index constants) or result
ids of earlier created instructions. -/
theorem C7_inserted_before_target (m : IRModule) (facts : List SynFact)
    (msg : TransformationAddBitInstructionSynonym) (bi : Instruction)
    (a_id b_id w : Nat) (sg : Bool)
    (hdef : GetDef m msg.instruction_result_id = some bi)
    (hop : bi.opcode = SpvOp.BitwiseOr ∨ bi.opcode = SpvOp.BitwiseXor ∨
      bi.opcode = SpvOp.BitwiseAnd)
    (hops : bi.in_operands = [a_id, b_id])
    (hty : GetType m bi.type_id = some (SpvType.Integer w sg))
    (hw : 2 ≤ w)
    (happ : IsApplicable m msg = some true) :
    ∃ out l1 l2, Apply m facts msg = some out ∧
      m.instructions = l1 ++ bi :: l2 ∧
      out.module.instructions = l1 ++ out.created ++ bi :: l2 ∧
      DefBeforeUse (fun x => x ∈ m.usedIds) out.created := by
  obtain ⟨hconst, hlen, hfresh⟩ := isApplicable_true_elim m msg bi w sg hdef hop hty happ
  obtain ⟨l1, l2, hdecomp, hl1⟩ := find?_decomp m.instructions _ bi hdef
  have hrid := getDef_result_id m msg.instruction_result_id bi hdef
  have hl1ne : ∀ y ∈ l1, y.result_id ≠ bi.result_id := by
    intro y hy heq
    apply hl1 y hy
    rw [heq, hrid]
    simp
  have hne := specChain_result_ids_ne_target m msg bi a_id b_id w hdef hfresh hlen hw
  have hbimem : bi ∈ m.instructions := by
    rw [hdecomp]
    simp
  refine ⟨_, l1, l2, apply_eq m facts msg bi a_id b_id w sg hdef hop hops hty hw,
    hdecomp, ?_, ?_⟩
  · exact foldl_applyStep_instructions bi.result_id bi rfl _ m l1 l2 hdecomp hl1ne hne
  · refine specChain_dbu bi.opcode bi.type_id a_id b_id _ _ w hw _ ?_ ?_ ?_
    · refine mem_usedIds_of_instruction m bi hbimem a_id ?_
      simp [Instruction.usedIds, hops]
    · refine mem_usedIds_of_instruction m bi hbimem b_id ?_
      simp [Instruction.usedIds, hops]
    · intro i hi
      exact constId_mem_usedIds m i (hconst i hi)

/-- Witness for C7 at the concrete width-8 XOR module. -/
theorem C7_inserted_before_target_witness :
    (GetDef exM exMsg.instruction_result_id = some exTarget ∧
     IsApplicable exM exMsg = some true) ∧
    ∃ out l1 l2, Apply exM [] exMsg = some out ∧
      exM.instructions = l1 ++ exTarget :: l2 ∧
      out.module.instructions = l1 ++ out.created ++ exTarget :: l2 ∧
      DefBeforeUse (fun x => x ∈ exM.usedIds) out.created :=
  ⟨⟨by decide, by decide⟩,
    C7_inserted_before_target exM [] exMsg exTarget 30 31 8 false (by decide)
      (by decide) (by decide) (by decide) (by decide) (by decide)⟩

theorem applyStep_id_bound (rid : Nat) (mm : IRModule) (inst : Instruction) :
    (applyStep rid mm inst).id_bound = max mm.id_bound (inst.result_id + 1) := rfl

theorem foldl_applyStep_bound_mono (rid : Nat) :
    ∀ (l : List Instruction) (mm : IRModule),
      mm.id_bound ≤ (l.foldl (applyStep rid) mm).id_bound := by
  intro l
  induction l with
  | nil => intro mm; exact le_refl _
  | cons c cs ih =>
    intro mm
    refine le_trans ?_ (ih (applyStep rid mm c))
    rw [applyStep_id_bound]
    exact le_max_left _ _

theorem foldl_applyStep_mem_lt (rid : Nat) :
    ∀ (l : List Instruction) (mm : IRModule) (inst : Instruction), inst ∈ l →
      inst.result_id < (l.foldl (applyStep rid) mm).id_bound := by
  intro l
  induction l with
  | nil => intro mm inst h; simp at h
  | cons c cs ih =>
    intro mm inst h
    rcases List.mem_cons.mp h with rfl | h
    · rw [List.foldl_cons]
      refine lt_of_lt_of_le ?_ (foldl_applyStep_bound_mono rid cs (applyStep rid mm inst))
      rw [applyStep_id_bound]
      omega
    · exact ih (applyStep rid mm c) inst h

theorem mem_insertBeforeList (rid : Nat) (inst : Instruction) :
    ∀ (l : List Instruction) (y : Instruction),
      y ∈ insertBeforeList rid inst l → y = inst ∨ y ∈ l := by
  intro l
  induction l with
  | nil => intro y h; simp [insertBeforeList] at h
  | cons a t ih =>
    intro y h
    unfold insertBeforeList at h
    by_cases ha : a.result_id = rid
    · rw [if_pos ha] at h
      rcases List.mem_cons.mp h with rfl | h
      · exact Or.inl rfl
      · exact Or.inr h
    · rw [if_neg ha] at h
      rcases List.mem_cons.mp h with rfl | h
      · exact Or.inr (by simp)
      · rcases ih y h with h2 | h2
        · exact Or.inl h2
        · exact Or.inr (by simp [h2])

theorem usedIds_applyStep (rid : Nat) (mm : IRModule) (inst : Instruction) :
    ∀ x ∈ (applyStep rid mm inst).usedIds, x ∈ inst.usedIds ∨ x ∈ mm.usedIds := by
  intro x hx
  unfold applyStep UpdateModuleIdBound insertBefore IRModule.usedIds at hx
  simp only [List.mem_append, or_assoc] at hx
  rcases hx with hx | hx | hx
  · obtain ⟨y, hy, hxy⟩ := List.mem_flatMap.mp hx
    rcases mem_insertBeforeList rid inst mm.instructions y hy with rfl | hy2
    · exact Or.inl hxy
    · refine Or.inr (mem_usedIds_of_instruction mm y hy2 x hxy)
  · unfold IRModule.usedIds
    simp only [List.mem_append]
    exact Or.inr (Or.inl (Or.inr hx))
  · unfold IRModule.usedIds
    simp only [List.mem_append]
    exact Or.inr (Or.inr hx)

theorem foldl_applyStep_IdBoundOk (rid : Nat) :
    ∀ (l : List Instruction) (mm : IRModule) (low : Nat → Prop),
      IdBoundOk mm → (∀ x, low x → x < mm.id_bound) →
      DefBeforeUse low l → (∀ inst ∈ l, inst.type_id < mm.id_bound) →
      IdBoundOk (l.foldl (applyStep rid) mm) := by
  intro l
  induction l with
  | nil =>
    intro mm low hok _ _ _
    exact hok
  | cons c cs ih =>
    intro mm low hok hlow hdbu htid
    obtain ⟨hops, hrest⟩ := hdbu
    have hmono : mm.id_bound ≤ (applyStep rid mm c).id_bound := by
      rw [applyStep_id_bound]
      exact le_max_left _ _
    have hok1 : IdBoundOk (applyStep rid mm c) := by
      intro x hx
      rw [applyStep_id_bound]
      rcases usedIds_applyStep rid mm c x hx with hx | hx
      · unfold Instruction.usedIds at hx
        rcases List.mem_cons.mp hx with rfl | hx
        · omega
        · rcases List.mem_cons.mp hx with rfl | hx
          · have := htid c (by simp)
            omega
          · have := hlow x (hops x hx)
            omega
      · have := hok x hx
        omega
    rw [List.foldl_cons]
    refine ih (applyStep rid mm c) (fun x => low x ∨ x = c.result_id) hok1 ?_ hrest ?_
    · intro x hx
      rw [applyStep_id_bound]
      rcases hx with hx | rfl
      · have := hlow x hx
        omega
      · omega
    · intro inst hinst
      exact lt_of_lt_of_le (htid inst (by simp [hinst])) hmono

/-- C6: during `Apply` every newly created result id advances the module
id bound immediately at its own creation step — after any prefix of the
creation sequence, every id created so far is already strictly below the
current bound — and after a successful `Apply` the module's id bound is
strictly greater than every id used anywhere in the module. -/
theorem C6_id_bound_advanced (m : IRModule) (facts : List SynFact)
    (msg : TransformationAddBitInstructionSynonym) (bi : Instruction)
    (a_id b_id w : Nat) (sg : Bool)
    (hdef : GetDef m msg.instruction_result_id = some bi)
    (hop : bi.opcode = SpvOp.BitwiseOr ∨ bi.opcode = SpvOp.BitwiseXor ∨
      bi.opcode = SpvOp.BitwiseAnd)
    (hops : bi.in_operands = [a_id, b_id])
    (hty : GetType m bi.type_id = some (SpvType.Integer w sg))
    (hw : 2 ≤ w)
    (happ : IsApplicable m msg = some true)
    (hbound : IdBoundOk m) :
    ∃ out, Apply m facts msg = some out ∧
      (∀ k, k ≤ out.created.length → ∀ inst ∈ out.created.take k,
        inst.result_id <
          ((out.created.take k).foldl (applyStep bi.result_id) m).id_bound) ∧
      IdBoundOk out.module := by
  obtain ⟨hconst, hlen, hfresh⟩ := isApplicable_true_elim m msg bi w sg hdef hop hty happ
  have hbimem : bi ∈ m.instructions := by
    obtain ⟨l1, l2, hdecomp, _⟩ := find?_decomp m.instructions _ bi hdef
    rw [hdecomp]
    simp
  refine ⟨_, apply_eq m facts msg bi a_id b_id w sg hdef hop hops hty hw, ?_, ?_⟩
  · intro k _ inst hinst
    exact foldl_applyStep_mem_lt bi.result_id _ m inst hinst
  · have hdbu : DefBeforeUse (fun x => x ∈ m.usedIds)
        (specChain bi.opcode bi.type_id a_id b_id
          (fun v => MaybeGetIntegerConstant m v)
          (fun k => msg.fresh_ids.getD k 0) w) := by
      refine specChain_dbu bi.opcode bi.type_id a_id b_id _ _ w hw _ ?_ ?_ ?_
      · refine mem_usedIds_of_instruction m bi hbimem a_id ?_
        simp [Instruction.usedIds, hops]
      · refine mem_usedIds_of_instruction m bi hbimem b_id ?_
        simp [Instruction.usedIds, hops]
      · intro i hi
        exact constId_mem_usedIds m i (hconst i hi)
    have htid : ∀ inst ∈ specChain bi.opcode bi.type_id a_id b_id
        (fun v => MaybeGetIntegerConstant m v)
        (fun k => msg.fresh_ids.getD k 0) w, inst.type_id < m.id_bound := by
      intro inst hinst
      rw [specChain_typeIds bi.opcode bi.type_id a_id b_id _ _ w inst hinst]
      refine hbound _ (mem_usedIds_of_instruction m bi hbimem bi.type_id ?_)
      simp [Instruction.usedIds]
    exact foldl_applyStep_IdBoundOk bi.result_id _ m _ hbound hbound hdbu htid

/-- Witness for C6 at the concrete width-8 XOR module. -/
theorem C6_id_bound_advanced_witness :
    (IsApplicable exM exMsg = some true ∧ IdBoundOk exM) ∧
    ∃ out, Apply exM [] exMsg = some out ∧
      (∀ k, k ≤ out.created.length → ∀ inst ∈ out.created.take k,
        inst.result_id <
          ((out.created.take k).foldl (applyStep exTarget.result_id) exM).id_bound) ∧
      IdBoundOk out.module :=
  ⟨⟨by decide, by decide⟩,
    C6_id_bound_advanced exM [] exMsg exTarget 30 31 8 false (by decide) (by decide)
      (by decide) (by decide) (by decide) (by decide) (by decide)⟩

theorem updEnv_same (e : Nat → Option Nat) (id v : Nat) : updEnv e id v id = some v := by
  simp [updEnv]

theorem updEnv_ne (e : Nat → Option Nat) (id v x : Nat) (h : x ≠ id) :
    updEnv e id v x = e x := by
  simp [updEnv, h]

theorem evalChain_cons (tw e : Nat → Option Nat) (inst : Instruction)
    (l : List Instruction) :
    evalChain tw e (inst :: l) =
      (evalInstr tw e inst).bind
        (fun v => evalChain tw (updEnv e inst.result_id v) l) := by
  show (match evalInstr tw e inst with
    | none => none
    | some v => evalChain tw (updEnv e inst.result_id v) l) = _
  cases evalInstr tw e inst <;> rfl

theorem evalChain_append (tw : Nat → Option Nat) :
    ∀ (l1 l2 : List Instruction) (e : Nat → Option Nat),
      evalChain tw e (l1 ++ l2) =
        (evalChain tw e l1).bind (fun e2 => evalChain tw e2 l2) := by
  intro l1
  induction l1 with
  | nil => intro l2 e; simp [evalChain]
  | cons i t ih =>
    intro l2 e
    rw [List.cons_append, evalChain_cons, evalChain_cons, Option.bind_assoc]
    cases h : evalInstr tw e i with
    | none => simp
    | some v => simp [ih]

theorem evalInstr_extract (tw e : Nat → Option Nat) (tid rid x o c w vb vo vc : Nat)
    (htw : tw tid = some w) (hx : e x = some vb) (ho : e o = some vo)
    (hc : e c = some vc) :
    evalInstr tw e
      { opcode := SpvOp.BitFieldUExtract, type_id := tid,
        result_id := rid, in_operands := [x, o, c] } =
      some (vb / 2 ^ vo % 2 ^ vc) := by
  simp [evalInstr, htw, hx, ho, hc]

theorem evalInstr_insert (tw e : Nat → Option Nat)
    (tid rid x y o c w vb vi vo vc : Nat)
    (htw : tw tid = some w) (hx : e x = some vb) (hy : e y = some vi)
    (ho : e o = some vo) (hc : e c = some vc) :
    evalInstr tw e
      { opcode := SpvOp.BitFieldInsert, type_id := tid,
        result_id := rid, in_operands := [x, y, o, c] } =
      some ((vb % 2 ^ vo + vi % 2 ^ vc * 2 ^ vo +
        vb / 2 ^ (vo + vc) * 2 ^ (vo + vc)) % 2 ^ w) := by
  simp [evalInstr, htw, hx, hy, ho, hc]

theorem evalInstr_bitwise (op : SpvOp)
    (hop3 : op = SpvOp.BitwiseOr ∨ op = SpvOp.BitwiseXor ∨ op = SpvOp.BitwiseAnd)
    (tw e : Nat → Option Nat) (tid rid x y w vx vy : Nat)
    (htw : tw tid = some w) (hx : e x = some vx) (hy : e y = some vy) :
    evalInstr tw e
      { opcode := op, type_id := tid, result_id := rid,
        in_operands := [x, y] } = some (opFn op vx vy) := by
  rcases hop3 with h | h | h <;> subst h <;> simp [evalInstr, opFn, htw, hx, hy]

theorem opFn_bit (op : SpvOp)
    (hop3 : op = SpvOp.BitwiseOr ∨ op = SpvOp.BitwiseXor ∨ op = SpvOp.BitwiseAnd)
    (a b i : Nat) :
    opFn op (a / 2 ^ i % 2) (b / 2 ^ i % 2) = opFn op a b / 2 ^ i % 2 := by
  rcases hop3 with h | h | h <;> subst h <;> simp only [opFn]
  · rw [← Nat.toNat_testBit, ← Nat.toNat_testBit, ← Nat.toNat_testBit,
      Nat.testBit_or]
    cases a.testBit i <;> cases b.testBit i <;> rfl
  · rw [← Nat.toNat_testBit, ← Nat.toNat_testBit, ← Nat.toNat_testBit,
      Nat.testBit_xor]
    cases a.testBit i <;> cases b.testBit i <;> rfl
  · rw [← Nat.toNat_testBit, ← Nat.toNat_testBit, ← Nat.toNat_testBit,
      Nat.testBit_and]
    cases a.testBit i <;> cases b.testBit i <;> rfl

theorem opFn_lt (op : SpvOp)
    (hop3 : op = SpvOp.BitwiseOr ∨ op = SpvOp.BitwiseXor ∨ op = SpvOp.BitwiseAnd)
    (w a b : Nat) (ha : a < 2 ^ w) (hb : b < 2 ^ w) : opFn op a b < 2 ^ w := by
  rcases hop3 with h | h | h <;> subst h <;> simp only [opFn]
  · exact Nat.or_lt_two_pow ha hb
  · exact Nat.xor_lt_two_pow ha hb
  · exact Nat.and_lt_two_pow _ hb

theorem mod_two_pow_succ (z j : Nat) :
    z % 2 ^ (j + 1) = z % 2 ^ j + z / 2 ^ j % 2 * 2 ^ j := by
  rw [pow_succ, Nat.mod_mul]
  ring

theorem evalPhaseA (tw env0 : Nat → Option Nat) (op : SpvOp) (tid a_id b_id : Nat)
    (cf f : Nat → Nat) (w a b : Nat)
    (hop3 : op = SpvOp.BitwiseOr ∨ op = SpvOp.BitwiseXor ∨ op = SpvOp.BitwiseAnd)
    (htw : tw tid = some w)
    (ha : env0 a_id = some a) (hb : env0 b_id = some b)
    (hcst : ∀ i, i < w → env0 (cf i) = some i)
    (hinj : ∀ j k, j < 4 * w - 1 → k < 4 * w - 1 → f j = f k → j = k)
    (hfa : ∀ k, k < 4 * w - 1 → f k ≠ a_id)
    (hfb : ∀ k, k < 4 * w - 1 → f k ≠ b_id)
    (hfc : ∀ k i, k < 4 * w - 1 → i < w → f k ≠ cf i)
    (hw : 2 ≤ w) :
    ∀ n, n ≤ w →
      ∃ e, evalChain tw env0 (specPhaseA op tid a_id b_id cf f n) = some e ∧
        (∀ i, i < n → e (f (3 * i + 2)) = some (opFn op a b / 2 ^ i % 2)) ∧
        (∀ x, (∀ j, j < 3 * n → x ≠ f j) → e x = env0 x) := by
  intro n
  induction n with
  | zero =>
    intro _
    refine ⟨env0, rfl, ?_, ?_⟩
    · intro i hi
      omega
    · intro x _
      rfl
  | succ n ih =>
    intro hn
    obtain ⟨e, he, hbit, hout⟩ := ih (by omega)
    have hb3n : 3 * n < 4 * w - 1 := by omega
    have hb3n1 : 3 * n + 1 < 4 * w - 1 := by omega
    have hb3n2 : 3 * n + 2 < 4 * w - 1 := by omega
    have hea : e a_id = some a := by
      rw [hout a_id (fun j hj => (hfa j (by omega)).symm)]
      exact ha
    have heb : e b_id = some b := by
      rw [hout b_id (fun j hj => (hfb j (by omega)).symm)]
      exact hb
    have hecst : ∀ i, i < w → e (cf i) = some i := by
      intro i hi
      rw [hout (cf i) (fun j hj => (hfc j i (by omega) hi).symm)]
      exact hcst i hi
    have hsplit : specPhaseA op tid a_id b_id cf f (n + 1) =
        specPhaseA op tid a_id b_id cf f n ++ specTriple op tid a_id b_id cf f n := by
      rw [specPhaseA, specPhaseA, List.range_succ, List.flatMap_append]
      simp
    rw [hsplit, evalChain_append, he, Option.some_bind]
    rw [specTriple, evalChain_cons,
      evalInstr_extract tw e tid (f (3 * n)) a_id (cf n) (cf 1) w a n 1 htw hea
        (hecst n (by omega)) (hecst 1 (by omega)), Option.some_bind]
    have he1b : updEnv e (f (3 * n)) (a / 2 ^ n % 2 ^ 1) b_id = some b := by
      rw [updEnv_ne _ _ _ _ ((hfb _ hb3n).symm)]
      exact heb
    have he1cn : updEnv e (f (3 * n)) (a / 2 ^ n % 2 ^ 1) (cf n) = some n := by
      rw [updEnv_ne _ _ _ _ ((hfc _ n hb3n (by omega)).symm)]
      exact hecst n (by omega)
    have he1c1 : updEnv e (f (3 * n)) (a / 2 ^ n % 2 ^ 1) (cf 1) = some 1 := by
      rw [updEnv_ne _ _ _ _ ((hfc _ 1 hb3n (by omega)).symm)]
      exact hecst 1 (by omega)
    rw [evalChain_cons,
      evalInstr_extract tw _ tid (f (3 * n + 1)) b_id (cf n) (cf 1) w b n 1 htw he1b
        he1cn he1c1, Option.some_bind]
    have hne01 : f (3 * n) ≠ f (3 * n + 1) := by
      intro heq
      have := hinj _ _ hb3n hb3n1 heq
      omega
    have he2x : updEnv (updEnv e (f (3 * n)) (a / 2 ^ n % 2 ^ 1)) (f (3 * n + 1))
        (b / 2 ^ n % 2 ^ 1) (f (3 * n)) = some (a / 2 ^ n % 2 ^ 1) := by
      rw [updEnv_ne _ _ _ _ hne01, updEnv_same]
    have he2y : updEnv (updEnv e (f (3 * n)) (a / 2 ^ n % 2 ^ 1)) (f (3 * n + 1))
        (b / 2 ^ n % 2 ^ 1) (f (3 * n + 1)) = some (b / 2 ^ n % 2 ^ 1) := by
      rw [updEnv_same]
    rw [evalChain_cons,
      evalInstr_bitwise op hop3 tw _ tid (f (3 * n + 2)) (f (3 * n)) (f (3 * n + 1)) w
        (a / 2 ^ n % 2 ^ 1) (b / 2 ^ n % 2 ^ 1) htw he2x he2y, Option.some_bind]
    have hval : opFn op (a / 2 ^ n % 2 ^ 1) (b / 2 ^ n % 2 ^ 1) =
        opFn op a b / 2 ^ n % 2 := by
      rw [pow_one]
      exact opFn_bit op hop3 a b n
    refine ⟨_, rfl, ?_, ?_⟩
    · intro i hi
      by_cases hin : i = n
      · subst hin
        rw [updEnv_same, hval]
      · have hii : 3 * i + 2 < 4 * w - 1 := by omega
        have hne2 : f (3 * i + 2) ≠ f (3 * n + 2) := by
          intro heq
          have := hinj _ _ hii hb3n2 heq
          omega
        have hne1 : f (3 * i + 2) ≠ f (3 * n + 1) := by
          intro heq
          have := hinj _ _ hii hb3n1 heq
          omega
        have hne0 : f (3 * i + 2) ≠ f (3 * n) := by
          intro heq
          have := hinj _ _ hii hb3n heq
          omega
        rw [updEnv_ne _ _ _ _ hne2, updEnv_ne _ _ _ _ hne1, updEnv_ne _ _ _ _ hne0]
        exact hbit i (by omega)
    · intro x hx
      rw [updEnv_ne _ _ _ _ (hx _ (by omega)), updEnv_ne _ _ _ _ (hx _ (by omega)),
        updEnv_ne _ _ _ _ (hx _ (by omega))]
      exact hout x (fun j hj => hx j (by omega))

theorem evalPhaseB (tw envA env0 : Nat → Option Nat) (tid : Nat)
    (cf f : Nat → Nat) (w z : Nat)
    (htw : tw tid = some w)
    (hcst : ∀ i, i < w → env0 (cf i) = some i)
    (hinj : ∀ j k, j < 4 * w - 1 → k < 4 * w - 1 → f j = f k → j = k)
    (hfc : ∀ k i, k < 4 * w - 1 → i < w → f k ≠ cf i)
    (hw : 2 ≤ w)
    (hA2 : ∀ i, i < w → envA (f (3 * i + 2)) = some (z / 2 ^ i % 2))
    (hAout : ∀ x, (∀ j, j < 3 * w → x ≠ f j) → envA x = env0 x) :
    ∀ n, n ≤ w - 1 →
      ∃ e, evalChain tw envA (specPhaseB tid cf f w n) = some e ∧
        e (if n = 0 then f 2 else f (3 * w + n - 1)) = some (z % 2 ^ (n + 1)) ∧
        (∀ x, (∀ j, 3 * w ≤ j → j < 3 * w + n → x ≠ f j) → e x = envA x) := by
  intro n
  induction n with
  | zero =>
    intro _
    refine ⟨envA, rfl, ?_, fun x _ => rfl⟩
    have h0 := hA2 0 (by omega)
    simpa [Nat.div_one, pow_one] using h0
  | succ n ih =>
    intro hn
    obtain ⟨e, he, hval, hout2⟩ := ih (by omega)
    have hsplit : specPhaseB tid cf f w (n + 1) =
        specPhaseB tid cf f w n ++ [specInsert tid cf f w n] := by
      rw [specPhaseB, specPhaseB, List.range_succ, List.map_append]
      simp
    rw [hsplit, evalChain_append, he, Option.some_bind]
    have hvalop : e (f (3 * (n + 1) + 2)) = some (z / 2 ^ (n + 1) % 2) := by
      rw [hout2 (f (3 * (n + 1) + 2)) ?_]
      · exact hA2 (n + 1) (by omega)
      · intro j hj1 hj2 heq
        have := hinj _ _ (by omega) (by omega) heq
        omega
    have hoff : e (cf (n + 1)) = some (n + 1) := by
      rw [hout2 (cf (n + 1)) ?_]
      · rw [hAout (cf (n + 1)) ?_]
        · exact hcst (n + 1) (by omega)
        · intro j hj heq
          exact (hfc j (n + 1) (by omega) (by omega)) heq.symm
      · intro j hj1 hj2 heq
        exact (hfc j (n + 1) (by omega) (by omega)) heq.symm
    have hcnt : e (cf 1) = some 1 := by
      rw [hout2 (cf 1) ?_]
      · rw [hAout (cf 1) ?_]
        · exact hcst 1 (by omega)
        · intro j hj heq
          exact (hfc j 1 (by omega) (by omega)) heq.symm
      · intro j hj1 hj2 heq
        exact (hfc j 1 (by omega) (by omega)) heq.symm
    rw [specInsert, evalChain_cons,
      evalInstr_insert tw e tid (f (3 * w + n))
        (if n = 0 then f 2 else f (3 * w + n - 1)) (f (3 * (n + 1) + 2))
        (cf (n + 1)) (cf 1) w (z % 2 ^ (n + 1)) (z / 2 ^ (n + 1) % 2) (n + 1) 1
        htw hval hvalop hoff hcnt, Option.some_bind]
    have hV : (z % 2 ^ (n + 1) % 2 ^ (n + 1) +
        z / 2 ^ (n + 1) % 2 % 2 ^ 1 * 2 ^ (n + 1) +
        z % 2 ^ (n + 1) / 2 ^ (n + 1 + 1) * 2 ^ (n + 1 + 1)) % 2 ^ w =
        z % 2 ^ (n + 2) := by
      have hpos : 0 < 2 ^ (n + 1) := Nat.pos_pow_of_pos _ (by omega)
      have h1 : z % 2 ^ (n + 1) % 2 ^ (n + 1) = z % 2 ^ (n + 1) :=
        Nat.mod_eq_of_lt (Nat.mod_lt _ hpos)
      have h2 : z / 2 ^ (n + 1) % 2 % 2 ^ 1 = z / 2 ^ (n + 1) % 2 := by
        rw [pow_one]
        exact Nat.mod_eq_of_lt (Nat.mod_lt _ (by omega))
      have h3 : z % 2 ^ (n + 1) / 2 ^ (n + 1 + 1) = 0 := by
        refine Nat.div_eq_of_lt ?_
        refine lt_of_lt_of_le (Nat.mod_lt _ hpos) ?_
        exact Nat.pow_le_pow_right (by omega) (by omega)
      rw [h1, h2, h3]
      simp only [Nat.zero_mul, Nat.add_zero]
      rw [← mod_two_pow_succ]
      refine Nat.mod_eq_of_lt ?_
      refine lt_of_lt_of_le (Nat.mod_lt _ (Nat.pos_pow_of_pos _ (by omega))) ?_
      exact Nat.pow_le_pow_right (by omega) (by omega)
    refine ⟨_, rfl, ?_, ?_⟩
    · rw [if_neg (Nat.succ_ne_zero n)]
      have hkey : 3 * w + (n + 1) - 1 = 3 * w + n := by omega
      rw [hkey, updEnv_same, hV]
    · intro x hx
      rw [updEnv_ne _ _ _ _ (hx (3 * w + n) (by omega) (by omega))]
      exact hout2 x (fun j hj1 hj2 => hx j hj1 (by omega))

theorem evalSpecChain (tw env0 : Nat → Option Nat) (op : SpvOp)
    (tid a_id b_id : Nat) (cf f : Nat → Nat) (w a b : Nat)
    (hop3 : op = SpvOp.BitwiseOr ∨ op = SpvOp.BitwiseXor ∨ op = SpvOp.BitwiseAnd)
    (htw : tw tid = some w)
    (ha : env0 a_id = some a) (hb : env0 b_id = some b)
    (hcst : ∀ i, i < w → env0 (cf i) = some i)
    (hinj : ∀ j k, j < 4 * w - 1 → k < 4 * w - 1 → f j = f k → j = k)
    (hfa : ∀ k, k < 4 * w - 1 → f k ≠ a_id)
    (hfb : ∀ k, k < 4 * w - 1 → f k ≠ b_id)
    (hfc : ∀ k i, k < 4 * w - 1 → i < w → f k ≠ cf i)
    (hw : 2 ≤ w) (haw : a < 2 ^ w) (hbw : b < 2 ^ w) :
    ∃ e, evalChain tw env0 (specChain op tid a_id b_id cf f w) = some e ∧
      e (f (4 * w - 2)) = some (opFn op a b) := by
  obtain ⟨eA, heA, hbits, houtA⟩ := evalPhaseA tw env0 op tid a_id b_id cf f w a b
    hop3 htw ha hb hcst hinj hfa hfb hfc hw w (le_refl w)
  obtain ⟨eB, heB, hvalB, _⟩ := evalPhaseB tw eA env0 tid cf f w (opFn op a b)
    htw hcst hinj hfc hw hbits houtA (w - 1) (le_refl _)
  refine ⟨eB, ?_, ?_⟩
  · rw [specChain, evalChain_append, heA, Option.some_bind, heB]
  · rw [if_neg (by omega : w - 1 ≠ 0)] at hvalB
    have hidx : 3 * w + (w - 1) - 1 = 4 * w - 2 := by omega
    have hexp : w - 1 + 1 = w := by omega
    rw [hidx, hexp] at hvalB
    rw [hvalB, Nat.mod_eq_of_lt (opFn_lt op hop3 w a b haw hbw)]

/-- C1: for every supported opcode, operand width `w` in `{8,16,32,64}`
and all `w`-bit inputs `a, b`, evaluating the instruction chain that
`Apply` inserts — in an environment binding the target's operands to `a`
and `b` and each bit-index constant id to its value, with the supplied
fresh ids pairwise distinct and distinct from those bindings — yields
exactly `a op b` at the final instruction's result id.  The concrete
instance of the claim (width 8, XOR, `a = 0b10110010`, `b = 0b01100110`,
result `0b11010100 = 212`) is checked by the witness. -/
theorem C1_chain_equivalence (m : IRModule) (facts : List SynFact)
    (msg : TransformationAddBitInstructionSynonym) (bi : Instruction)
    (a_id b_id w : Nat) (sg : Bool) (a b : Nat)
    (env0 tw : Nat → Option Nat)
    (hdef : GetDef m msg.instruction_result_id = some bi)
    (hop : bi.opcode = SpvOp.BitwiseOr ∨ bi.opcode = SpvOp.BitwiseXor ∨
      bi.opcode = SpvOp.BitwiseAnd)
    (hops : bi.in_operands = [a_id, b_id])
    (hty : GetType m bi.type_id = some (SpvType.Integer w sg))
    (hwset : w = 8 ∨ w = 16 ∨ w = 32 ∨ w = 64)
    (htw : tw bi.type_id = some w)
    (ha : env0 a_id = some a) (hb : env0 b_id = some b)
    (haw : a < 2 ^ w) (hbw : b < 2 ^ w)
    (hcst : ∀ i, i < w → env0 (MaybeGetIntegerConstant m i) = some i)
    (hinj : ∀ j, j < 4 * w - 1 → ∀ k, k < 4 * w - 1 →
      msg.fresh_ids.getD j 0 = msg.fresh_ids.getD k 0 → j = k)
    (hfa : ∀ k, k < 4 * w - 1 → msg.fresh_ids.getD k 0 ≠ a_id)
    (hfb : ∀ k, k < 4 * w - 1 → msg.fresh_ids.getD k 0 ≠ b_id)
    (hfc : ∀ k, k < 4 * w - 1 → ∀ i, i < w →
      msg.fresh_ids.getD k 0 ≠ MaybeGetIntegerConstant m i) :
    ∃ out e, Apply m facts msg = some out ∧
      evalChain tw env0 out.created = some e ∧
      e (msg.fresh_ids.getD (4 * w - 2) 0) = some (opFn bi.opcode a b) := by
  have hw : 2 ≤ w := by rcases hwset with h | h | h | h <;> omega
  obtain ⟨e, he, hval⟩ := evalSpecChain tw env0 bi.opcode bi.type_id a_id b_id
    (fun v => MaybeGetIntegerConstant m v) (fun k => msg.fresh_ids.getD k 0) w a b
    hop htw ha hb hcst (fun j k hj hk => hinj j hj k hk) hfa hfb
    (fun k i hk hi => hfc k hk i hi) hw haw hbw
  exact ⟨_, e, apply_eq m facts msg bi a_id b_id w sg hdef hop hops hty hw, he, hval⟩

/-- Witness for C1 at the claim's concrete instance: width 8, opcode XOR,
`a = 0b10110010 = 178`, `b = 0b01100110 = 102`; the inserted chain
evaluates to `opFn XOR 178 102`, which is `0b11010100 = 212`. -/
theorem C1_chain_equivalence_witness :
    (GetDef exM exMsg.instruction_result_id = some exTarget ∧
     exTarget.in_operands = [30, 31] ∧
     GetType exM exTarget.type_id = some (SpvType.Integer 8 false) ∧
     exEnv 30 = some 178 ∧ exEnv 31 = some 102 ∧
     (∀ i, i < 8 → exEnv (MaybeGetIntegerConstant exM i) = some i) ∧
     (∀ j, j < 4 * 8 - 1 → ∀ k, k < 4 * 8 - 1 →
       exMsg.fresh_ids.getD j 0 = exMsg.fresh_ids.getD k 0 → j = k)) ∧
    (∃ out e, Apply exM [] exMsg = some out ∧
      evalChain exTw exEnv out.created = some e ∧
      e (exMsg.fresh_ids.getD (4 * 8 - 2) 0) = some (opFn exTarget.opcode 178 102)) ∧
    opFn exTarget.opcode 178 102 = 212 :=
  ⟨by decide,
    C1_chain_equivalence exM [] exMsg exTarget 30 31 8 false 178 102 exEnv exTw
      (by decide) (by decide) (by decide) (by decide) (by decide) (by decide)
      (by decide) (by decide) (by decide) (by decide) (by decide) (by decide)
      (by decide) (by decide) (by decide),
    by decide⟩
